import Mathlib

/-!
# Verification development for flyteplugins

Shallow embedding of

* `go/tasks/pluginmachinery/core/phase_enumer.go` (the generated name table of
  `core.Phase`),
* `go/tasks/plugins/array/awsbatch/monitor.go` (`CheckSubTasksState`,
  `calculateOriginalIndex`), and
* `go/tasks/plugins/webapi/bigquery/plugin.go` (`Plugin.Status`, `handleCreateError`,
  `handleErrorResult`, `createTaskInfo`),

followed by the theorems proved about them.

Conventions of the embedding:

* Go integers are `Int`; a conversion to a fixed width is written explicitly
  (`toInt64`, `toUint32`).
* A Go `string` is a Lean `String`; every string of the source is ASCII, so a
  byte slice `s[lo:hi]` is the character slice `goSlice s lo hi`.
* A Go run-time panic (index out of range, nil dereference) is the result
  `Outcome.panicked`.
-/

namespace Flyteplugins

/-! ## `core/phase_enumer.go` -/

/-- A `core.Phase` is a Go integer. -/
abbrev Phase := Int

/-- Go slice expression `s[lo:hi]` on an ASCII string. -/
def goSlice (s : String) (lo hi : Nat) : String :=
  String.mk ((s.data.drop lo).take (hi - lo))

/-- Constant `_PhaseName` (phase_enumer.go, line 10). -/
def _PhaseName : String :=
  "PhaseUndefinedPhaseNotReadyPhaseWaitingForResourcesPhaseQueuedPhaseInitializingPhaseRunningPhaseSuccessPhaseRetryableFailurePhasePermanentFailure"

/-- Table `_PhaseIndex` (phase_enumer.go, line 12). -/
def _PhaseIndex : List Nat := [0, 14, 27, 51, 62, 79, 91, 103, 124, 145]

/-- Method `Phase.String` (phase_enumer.go, lines 14-19): out of the table the
value is printed as `Phase(<decimal>)`, otherwise the name is the slice of
`_PhaseName` between two consecutive entries of `_PhaseIndex`. -/
def Phase.String (i : Phase) : String :=
  if i < 0 ∨ i ≥ ((_PhaseIndex.length : Int) - 1) then
    "Phase(" ++ toString i ++ ")"
  else
    goSlice _PhaseName (_PhaseIndex.getD i.toNat 0) (_PhaseIndex.getD (i.toNat + 1) 0)

/-- Variable `_PhaseValues` (phase_enumer.go, line 21). -/
def _PhaseValues : List Phase := [0, 1, 2, 3, 4, 5, 6, 7, 8]

/-- Map literal `_PhaseNameToValueMap` (phase_enumer.go, lines 23-33), as the
list of its key/value pairs; the keys are pairwise distinct, so a lookup in
the list is the lookup in the map. -/
def _PhaseNameToValueMap : List (String × Phase) :=
  [ (goSlice _PhaseName 0 14, 0),
    (goSlice _PhaseName 14 27, 1),
    (goSlice _PhaseName 27 51, 2),
    (goSlice _PhaseName 51 62, 3),
    (goSlice _PhaseName 62 79, 4),
    (goSlice _PhaseName 79 91, 5),
    (goSlice _PhaseName 91 103, 6),
    (goSlice _PhaseName 103 124, 7),
    (goSlice _PhaseName 124 145, 8) ]

/-- Function `PhaseString` (phase_enumer.go, lines 37-42): the value of the map
when the key is present, otherwise the error
`<s> does not belong to Phase values`. -/
def PhaseString (s : String) : Except String Phase :=
  match _PhaseNameToValueMap.lookup s with
  | some val => Except.ok val
  | none => Except.error (s ++ " does not belong to Phase values")

/-- Function `PhaseValues` (phase_enumer.go, lines 45-47). -/
def PhaseValues : List Phase := _PhaseValues

/-- Method `Phase.IsAPhase` (phase_enumer.go, lines 50-57). -/
def Phase.IsAPhase (i : Phase) : Bool :=
  _PhaseValues.any (fun v => i == v)

/-! ## Go run-time model -/

/-- Why a Go function stopped without a normal return value: a run-time panic,
or an `error` value returned in place of the result. -/
inductive Fault where
  | indexOutOfRange
  | nilDereference
  | allocation
  | err (e : String)
  deriving DecidableEq, Repr

/-- Conversion to `int64` (two's complement wrap-around). -/
def toInt64 (x : Int) : Int := (x + 2 ^ 63) % 2 ^ 64 - 2 ^ 63

/-- Conversion to `uint32`. -/
def toUint32 (x : Int) : Nat := (x % 2 ^ 32).toNat

/-- Conversion to `uint64`. -/
def toUint64 (x : Int) : Nat := (x % 2 ^ 64).toNat

/-- Go index expression `xs[i]` with an `int` index: panics out of range. -/
def goIndex {α : Type} (xs : List α) (i : Int) : Except Fault α :=
  if i < 0 then Except.error Fault.indexOutOfRange
  else match xs.get? i.toNat with
    | some x => Except.ok x
    | none => Except.error Fault.indexOutOfRange

/-- Dereference of a Go pointer: panics on nil. -/
def goDeref {α : Type} (p : Option α) : Except Fault α :=
  match p with
  | some x => Except.ok x
  | none => Except.error Fault.nilDereference

/-! ## Declarations used by `monitor.go` that live outside the two files -/

/-- Modelled from the spec: the table `core.Phases` (core/phase.go), the ordered
sequence of all phases (spec 4.1, `enumerate()`), indexed by numeric code. -/
def core.Phases : List Phase := [0, 1, 2, 3, 4, 5, 6, 7, 8]

/-- Modelled from the spec: `Phase.IsTerminal` (core/phase.go), true iff the phase
is Success (6), RetryableFailure (7) or PermanentFailure (8). -/
def Phase.IsTerminal (p : Phase) : Bool := p == 6 || p == 7 || p == 8

/-- Modelled from the spec: `Phase.IsFailure` (core/phase.go), the failure class
RetryableFailure (7) or PermanentFailure (8). -/
def Phase.IsFailure (p : Phase) : Bool := p == 7 || p == 8

/-- Modelled from the spec: `core.DefaultPhaseVersion` (core/phase.go), the fixed
default value 0 of a phase version. -/
def core.DefaultPhaseVersion : Nat := 0

/-- Modelled from the spec: `bitarray.Item`, an unsigned 64-bit item of a compacted
array. -/
abbrev Item := Nat

/-- Modelled from the spec: `bitarray.BitSet` (CacheIndexSet), a fixed-size bitset
over the positions `0 .. Cap-1`, given by its bits. -/
structure BitSet where
  bits : List Bool
  deriving DecidableEq, Repr

/-- Modelled from the spec: `BitSet.Cap`, the number of positions. -/
def BitSet.Cap (s : BitSet) : Nat := s.bits.length

/-- Modelled from the spec: `BitSet.IsSet`, whether position `i` is set. -/
def BitSet.IsSet (s : BitSet) (i : Nat) : Bool := s.bits.getD i false

/-- Modelled from the spec: `bitarray.CompactArray` (CompactedStatusArray), an
ordered sequence of items of fixed length, each stored on 4 bits. -/
structure CompactArray where
  Items : List Item
  deriving DecidableEq, Repr

/-- Modelled from the spec: `arrayCore.NewPhasesCompactArray` (spec 4.3, `new`),
an array of `count` items, Undefined (0) everywhere. -/
def arrayCore.NewPhasesCompactArray (count : Nat) : CompactArray :=
  CompactArray.mk (List.replicate count 0)

/-- Modelled from the spec: `CompactArray.GetItems`, the items in index order. -/
def CompactArray.GetItems (a : CompactArray) : List Item := a.Items

/-- Modelled from the spec: `CompactArray.SetItem` (spec 4.3, `set`), which fails
with IndexOutOfRange outside `[0, size)` and otherwise stores the 4 low bits of
the value. -/
def CompactArray.SetItem (a : CompactArray) (index : Int) (value : Item) :
    Except Fault CompactArray :=
  if index < 0 ∨ index ≥ (a.Items.length : Int) then Except.error Fault.indexOutOfRange
  else Except.ok (CompactArray.mk (a.Items.set index.toNat (value % 2 ^ 4)))

/-- Modelled from the spec: `arraystatus.ArraySummary`, the map from phase to
count, as the list of its entries (keys pairwise distinct). -/
abbrev ArraySummary := List (Phase × Int)

/-- Modelled from the spec: `ArraySummary.Inc`, which adds one to the count of a
phase, creating the entry when the phase has none. -/
def ArraySummary.Inc : ArraySummary → Phase → ArraySummary
  | [], p => [(p, 1)]
  | (q, c) :: rest, p =>
    if q = p then (q, c + 1) :: rest else (q, c) :: ArraySummary.Inc rest p

/-- Count of a phase in a summary (the map read `summary[p]`, 0 when absent). -/
def ArraySummary.count (s : ArraySummary) (p : Phase) : Int :=
  match s.lookup p with
  | some c => c
  | none => 0

/-- Modelled from the spec: `arraystatus.ArrayStatus`, the summary and the
compacted status array of one round. -/
structure ArrayStatus where
  Summary : ArraySummary
  Detailed : CompactArray
  deriving DecidableEq, Repr

/-- Modelled from the spec: `errorcollector.ErrorMessageCollector` (spec 4.2), the
collected `(childIndex, message)` entries in collection order. -/
abbrev ErrorMessageCollector := List (Int × String)

/-- Modelled from the spec: `errorcollector.NewErrorMessageCollector`, the
collector with no entry. -/
def errorcollector.NewErrorMessageCollector : ErrorMessageCollector := []

/-- Modelled from the spec: `ErrorMessageCollector.Collect`, which appends the entry
(no deduplication, collection order kept). -/
def ErrorMessageCollector.Collect (r : ErrorMessageCollector) (idx : Int) (msg : String) :
    ErrorMessageCollector :=
  r ++ [(idx, msg)]

/-- Modelled from the spec: the truncation marker of a summary; the spec does not
fix its text. -/
def errorcollector.truncationMarker : String := "..."

/-- Modelled from the spec: `ErrorMessageCollector.Summary` (spec 4.2, `summarize`),
the entries as `<childIndex>: <message>` joined by newlines in collection order,
cut to at most `maxLength` characters with the truncation marker at the end when
something was cut. -/
def ErrorMessageCollector.Summary (r : ErrorMessageCollector) (maxLength : Int) : String :=
  let res := String.intercalate "\n" (r.map (fun e => toString e.1 ++ ": " ++ e.2))
  if (res.length : Int) ≤ maxLength then res
  else
    let keep := maxLength.toNat - errorcollector.truncationMarker.length
    String.mk (((res.data.take keep) ++ errorcollector.truncationMarker.data).take maxLength.toNat)

/-- Modelled from the spec: `arrayCore.Phase`, the aggregate phase of an array task
as far as a reconciliation round produces it (spec 4.5, step 3). -/
inductive arrayCore.Phase where
  | PhaseCheckingSubTaskExecutions
  | PhaseSuccess
  | PhaseRetryableFailure
  | PhasePermanentFailure
  deriving DecidableEq, Repr

/-- Sum of all counts of a summary (the number of children it covers). -/
def ArraySummary.total (s : ArraySummary) : Int := (s.map (fun e => e.2)).sum

/-- Modelled from the spec: `arrayCore.SummaryToPhase` (spec 4.5, step 3), which is
declared in `array/core`. With `needed` the threshold passed in and `N` the sum of the
counts of the summary: Success when the count of Success is at least `needed`;
otherwise PermanentFailure when the children that can still succeed (`N` minus the
counts of RetryableFailure and PermanentFailure) are fewer than `needed`; otherwise
RetryableFailure when a child is in RetryableFailure; otherwise the still-checking
phase. -/
def arrayCore.SummaryToPhase (minSuccesses : Int) (summary : ArraySummary) : arrayCore.Phase :=
  if ArraySummary.count summary 6 ≥ minSuccesses then
    arrayCore.Phase.PhaseSuccess
  else if ArraySummary.total summary
      - (ArraySummary.count summary 7 + ArraySummary.count summary 8) < minSuccesses then
    arrayCore.Phase.PhasePermanentFailure
  else if ArraySummary.count summary 7 > 0 then
    arrayCore.Phase.PhaseRetryableFailure
  else
    arrayCore.Phase.PhaseCheckingSubTaskExecutions

/-- Modelled from the spec: `awsbatch.State` with its embedded `arrayCore.State`
(ParentAggregateState): phase, phase version, error text, array status and the
round-independent configuration. `ExternalJobID` is a pointer in the source. -/
structure State where
  CurrentPhase : arrayCore.Phase
  PhaseVersion : Nat
  Reason : String
  ExecutionArraySize : Int
  OriginalArraySize : Int
  OriginalMinSuccesses : Int
  ArrayStatus : ArrayStatus
  IndexesToCache : BitSet
  ExternalJobID : Option String
  deriving DecidableEq, Repr

/-- Modelled from the spec: `State.SetArrayStatus`. -/
def State.SetArrayStatus (s : State) (a : Flyteplugins.ArrayStatus) : State :=
  { s with ArrayStatus := a }

/-- Modelled from the spec: `State.SetReason`. -/
def State.SetReason (s : State) (reason : String) : State :=
  { s with Reason := reason }

/-- Modelled from the spec: `State.SetPhase`. -/
def State.SetPhase (s : State) (newPhase : arrayCore.Phase) (phaseVersion : Nat) : State :=
  { s with CurrentPhase := newPhase, PhaseVersion := phaseVersion }

/-- Modelled from the spec: an attempt record of a sub-job, with its log-stream
reference. -/
structure Attempt where
  LogStream : String
  deriving DecidableEq, Repr

/-- Modelled from the spec: the status of a sub-job slot, current phase and optional
failure message. -/
structure JobStatus where
  Phase : Flyteplugins.Phase
  Message : String
  deriving DecidableEq, Repr

/-- Modelled from the spec: a child sub-job of a job record (an `awsbatch.Job` whose
own `SubJobs` the round never reads). -/
structure SubJob where
  ID : String
  Attempts : List Attempt
  Status : JobStatus
  deriving DecidableEq, Repr

/-- Modelled from the spec: `awsbatch.Job` (JobRecord): external job identifier,
owner reference and the sub-job slots, each a pointer that may be nil. -/
structure Job where
  ID : String
  OwnerReference : String
  SubJobs : List (Option SubJob)
  deriving DecidableEq, Repr

/-- Modelled from the spec: `awsbatch.JobStore` (Job State Cache) as the round sees
it: the answer of `Get` and of `GetOrCreate` for every argument. -/
structure JobStore where
  Get : String → Option Job
  GetOrCreate : String → Job → Except String Job

/-- A mutating call made on the job store. -/
inductive StoreCall where
  | GetOrCreate (key : String) (job : Job)
  deriving DecidableEq, Repr

/-- Modelled from the spec: `core.TaskExecutionMetadata`, the generated name of the
execution (the cache key) and its owner reference. -/
structure TaskExecutionMetadata where
  GeneratedName : String
  OwnerID : String
  deriving DecidableEq, Repr

/-- Modelled from the spec: `config.Config`, the bound on the error text. -/
structure Config where
  MaxErrorStringLength : Int
  deriving DecidableEq, Repr

/-- Log link `idlCore.TaskLog`; only its name is kept, the links are local to a
round. -/
structure TaskLog where
  Name : String
  deriving DecidableEq, Repr

/-! ## `array/awsbatch/monitor.go` -/

/-- Loop of `calculateOriginalIndex` (monitor.go, lines 116-124) from position `i`
with `sum` unset bits seen so far; `fuel` is the number of positions left,
`Cap - i`. -/
def calculateOriginalIndex.loop (childIdx : Int) (toCache : BitSet) :
    Nat → Nat → Int → Int
  | 0, _, _ => -1
  | fuel + 1, i, sum =>
    if !toCache.IsSet i then
      if sum = childIdx then (i : Int)
      else calculateOriginalIndex.loop childIdx toCache fuel (i + 1) (sum + 1)
    else calculateOriginalIndex.loop childIdx toCache fuel (i + 1) sum

/-- Function `calculateOriginalIndex` (monitor.go, lines 114-127): the position of
the first unset bit that has `childIdx` unset bits before it, or -1. -/
def calculateOriginalIndex (childIdx : Int) (toCache : BitSet) : Int :=
  calculateOriginalIndex.loop childIdx toCache toCache.Cap 0 0

/-- Local variables of `CheckSubTasksState` that its loop updates. -/
structure LoopState where
  logLinks : List TaskLog
  msg : ErrorMessageCollector
  newArrayStatus : ArrayStatus
  deriving DecidableEq, Repr

/-- Body of the loop of `CheckSubTasksState` (monitor.go, lines 50-84) for the child
`childIdx` whose item in the prior array is `existingPhaseIdx`. -/
def CheckSubTasksState.body (job : Job) (currentState : State) (childIdx : Nat)
    (existingPhaseIdx : Item) (st : LoopState) : Except Fault LoopState := do
  let existingPhase ← goIndex core.Phases (existingPhaseIdx : Int)
  if existingPhase.IsTerminal then
    let summary := ArraySummary.Inc st.newArrayStatus.Summary existingPhase
    let detailed ← st.newArrayStatus.Detailed.SetItem childIdx (toUint64 existingPhase)
    pure { st with newArrayStatus := ArrayStatus.mk summary detailed }
  else
    let subJobPtr ← goIndex job.SubJobs (childIdx : Int)
    let originalIndex := calculateOriginalIndex childIdx currentState.IndexesToCache
    let logLinks := st.logLinks ++ [TaskLog.mk ("AWS Batch Job #" ++ toString originalIndex)]
    let subJob ← goDeref subJobPtr
    let logLinks := logLinks ++ subJob.Attempts.map (fun _ =>
      TaskLog.mk ("AWS Batch #" ++ toString originalIndex
        ++ " (" ++ Phase.String subJob.Status.Phase ++ ")"))
    let msg :=
      if subJob.Status.Phase.IsFailure then
        if subJob.Status.Message.length > 0 then
          ErrorMessageCollector.Collect st.msg childIdx subJob.Status.Message
        else st.msg
      else st.msg
    let detailed ← st.newArrayStatus.Detailed.SetItem childIdx (toUint64 subJob.Status.Phase)
    let summary := ArraySummary.Inc st.newArrayStatus.Summary subJob.Status.Phase
    pure (LoopState.mk logLinks msg (ArrayStatus.mk summary detailed))

/-- Loop of `CheckSubTasksState` (monitor.go, line 49) over the items of the prior
array, from child index `childIdx` on. -/
def CheckSubTasksState.loop (job : Job) (currentState : State) :
    List Item → Nat → LoopState → Except Fault LoopState
  | [], _, st => Except.ok st
  | existingPhaseIdx :: rest, childIdx, st =>
    match CheckSubTasksState.body job currentState childIdx existingPhaseIdx st with
    | Except.error f => Except.error f
    | Except.ok st1 => CheckSubTasksState.loop job currentState rest (childIdx + 1) st1

/-- Threshold that `CheckSubTasksState` passes to `SummaryToPhase` (monitor.go,
line 89), in `int64` arithmetic. -/
def CheckSubTasksState.threshold (currentState : State) : Int :=
  toInt64 (toInt64 (currentState.OriginalMinSuccesses - currentState.OriginalArraySize)
    - toInt64 currentState.ExecutionArraySize)

/-- Phase version of a still-checking round (monitor.go, lines 96-102): the sum of
`uint32(phase) * uint32(count)` over the entries of the summary, in `uint32`
arithmetic. -/
def CheckSubTasksState.newPhaseVersion (summary : ArraySummary) : Nat :=
  summary.foldl (fun v e => (v + (toUint32 e.1 * toUint32 e.2) % 2 ^ 32) % 2 ^ 32) 0

/-- End of `CheckSubTasksState` (monitor.go, lines 87-110), after the loop. -/
def CheckSubTasksState.finish (cfg : Config) (currentState : State) (st : LoopState) : State :=
  let parentState := currentState.SetArrayStatus st.newArrayStatus
  let phase := arrayCore.SummaryToPhase (CheckSubTasksState.threshold currentState)
    st.newArrayStatus.Summary
  let parentState :=
    if phase = arrayCore.Phase.PhasePermanentFailure
        ∨ phase = arrayCore.Phase.PhaseRetryableFailure then
      parentState.SetReason (ErrorMessageCollector.Summary st.msg cfg.MaxErrorStringLength)
    else parentState
  if phase = arrayCore.Phase.PhaseCheckingSubTaskExecutions then
    parentState.SetPhase phase (CheckSubTasksState.newPhaseVersion parentState.ArrayStatus.Summary)
  else
    parentState.SetPhase phase core.DefaultPhaseVersion

/-- What a call of `CheckSubTasksState` does: the mutating calls it makes on the
job store, and its result (the new state, a returned error, or a panic). -/
structure Round where
  calls : List StoreCall
  result : Except Fault State

/-- Function `CheckSubTasksState` (monitor.go, lines 19-111). A negative
`ExecutionArraySize` makes the allocation of the new array fail. -/
def CheckSubTasksState (taskMeta : TaskExecutionMetadata) (jobStore : JobStore)
    (cfg : Config) (currentState : State) : Round :=
  if currentState.ExecutionArraySize < 0 then Round.mk [] (Except.error Fault.allocation)
  else
    let msg := errorcollector.NewErrorMessageCollector
    let newArrayStatus := ArrayStatus.mk []
      (arrayCore.NewPhasesCompactArray currentState.ExecutionArraySize.toNat)
    let jobName := taskMeta.GeneratedName
    match jobStore.Get jobName with
    | none =>
      match currentState.ExternalJobID with
      | none => Round.mk [] (Except.error Fault.nilDereference)
      | some id =>
        let record := Job.mk id taskMeta.OwnerID
          (List.replicate currentState.ExecutionArraySize.toNat none)
        match jobStore.GetOrCreate jobName record with
        | Except.error e =>
          Round.mk [StoreCall.GetOrCreate jobName record] (Except.error (Fault.err e))
        | Except.ok _ =>
          Round.mk [StoreCall.GetOrCreate jobName record] (Except.ok currentState)
    | some job =>
      match CheckSubTasksState.loop job currentState
          currentState.ArrayStatus.Detailed.GetItems 0 (LoopState.mk [] msg newArrayStatus) with
      | Except.error f => Round.mk [] (Except.error f)
      | Except.ok st => Round.mk [] (Except.ok (CheckSubTasksState.finish cfg currentState st))

/-! ## Declarations used by `bigquery/plugin.go` that live outside the file -/

/-- Field `Kind` of `flyteIdlCore.ExecutionError`. -/
inductive flyteIdlCore.ErrorKind where
  | ExecutionError_UNKNOWN
  | ExecutionError_USER
  | ExecutionError_SYSTEM
  deriving DecidableEq, Repr

/-- Message `flyteIdlCore.ExecutionError`: error code, message and kind. -/
structure flyteIdlCore.ExecutionError where
  Code : String
  Message : String
  Kind : flyteIdlCore.ErrorKind
  deriving DecidableEq, Repr

/-- Log link `flyteIdlCore.TaskLog` of a task info, with its address. -/
structure flyteIdlCore.TaskLog where
  Uri : String
  Name : String
  deriving DecidableEq, Repr

/-- Modelled from the spec: `core.TaskInfo`, the optional log links of a status
(spec 6), with the time at which it was built. -/
structure core.TaskInfo where
  OccurredAt : Nat
  Logs : List flyteIdlCore.TaskLog
  deriving DecidableEq, Repr

/-- Modelled from the spec: `core.PhaseInfo`, what `status` reports (spec 6): phase,
version, optional task info with log links, optional execution error. -/
structure core.PhaseInfo where
  phase : Phase
  version : Nat
  info : Option core.TaskInfo
  err : Option flyteIdlCore.ExecutionError
  deriving DecidableEq, Repr

/-- Modelled from the spec: `core.PhaseInfoUndefined`, the phase info of the Undefined
phase (code 0). -/
def core.PhaseInfoUndefined : core.PhaseInfo :=
  core.PhaseInfo.mk 0 core.DefaultPhaseVersion none none

/-- Modelled from the spec: `core.PhaseInfoRunning`, the Running phase (code 5) with
the given version and task info. -/
def core.PhaseInfoRunning (version : Nat) (info : core.TaskInfo) : core.PhaseInfo :=
  core.PhaseInfo.mk 5 version (some info) none

/-- Modelled from the spec: `core.PhaseInfoSuccess`, the Success phase (code 6) with
the default version and the task info. -/
def core.PhaseInfoSuccess (info : core.TaskInfo) : core.PhaseInfo :=
  core.PhaseInfo.mk 6 core.DefaultPhaseVersion (some info) none

/-- Modelled from the spec: `core.PhaseInfoFailed`, the given failure phase with the
default version, the execution error and the task info. -/
def core.PhaseInfoFailed (p : Phase) (err : flyteIdlCore.ExecutionError)
    (info : core.TaskInfo) : core.PhaseInfo :=
  core.PhaseInfo.mk p core.DefaultPhaseVersion (some info) (some err)

/-- Modelled from the spec: `core.PhaseRetryableFailure`, code 7 of the phase table. -/
def core.PhaseRetryableFailure : Phase := 7

/-- Modelled from the spec: `core.PhasePermanentFailure`, code 8 of the phase table. -/
def core.PhasePermanentFailure : Phase := 8

/-- Error codes of `tasks/errors` and `core` that `plugin.go` names. -/
inductive pluginErrors.ErrorCode where
  | SystemErrorCode
  | RuntimeFailure
  | BadTaskSpecification
  | PluginInitializationFailed
  deriving DecidableEq, Repr

/-- A Go `error` built by `pluginErrors.Errorf`: its code and formatted message. -/
structure pluginErrors.Error where
  Code : pluginErrors.ErrorCode
  Message : String
  deriving DecidableEq, Repr

/-- Function `pluginErrors.Errorf`, with the message already formatted. -/
def pluginErrors.Errorf (code : pluginErrors.ErrorCode) (msg : String) : pluginErrors.Error :=
  pluginErrors.Error.mk code msg

/-- Type `bigquery.ErrorProto` of the BigQuery API: reason and message of an error. -/
structure bigquery.ErrorProto where
  Reason : String
  Message : String
  deriving DecidableEq, Repr

/-- Type `bigquery.JobStatus` of the BigQuery API: the state of the job and the
error result, a pointer that may be nil. -/
structure bigquery.JobStatus where
  State : String
  ErrorResult : Option bigquery.ErrorProto
  deriving DecidableEq, Repr

/-- Type `bigquery.JobReference` of the BigQuery API. -/
structure bigquery.JobReference where
  JobId : String
  Location : String
  ProjectId : String
  deriving DecidableEq, Repr

/-- Type `googleapi.Error`: HTTP code and message of a failed API call. -/
structure googleapi.Error where
  Code : Int
  Message : String
  deriving DecidableEq, Repr

/-- Constant `http.StatusBadRequest`. -/
def http.StatusBadRequest : Int := 400

/-- Constant `http.StatusInternalServerError`. -/
def http.StatusInternalServerError : Int := 500

/-! ## `webapi/bigquery/plugin.go` -/

/-- Type `ResourceWrapper` (plugin.go, lines 39-42); both fields are pointers that may
be nil. -/
structure ResourceWrapper where
  Status : Option bigquery.JobStatus
  CreateError : Option googleapi.Error
  deriving DecidableEq, Repr

/-- Type `ResourceMetaWrapper` (plugin.go, lines 44-48). -/
structure ResourceMetaWrapper where
  K8sServiceAccount : String
  Namespace : String
  JobReference : bigquery.JobReference
  deriving DecidableEq, Repr

/-- Function `createTaskInfo` (plugin.go, lines 440-455); `timeNow` is the value that
`time.Now()` returns. -/
def createTaskInfo (timeNow : Nat) (resourceMeta : ResourceMetaWrapper) : core.TaskInfo :=
  let j := "bq:" ++ resourceMeta.JobReference.Location ++ ":" ++ resourceMeta.JobReference.JobId
  core.TaskInfo.mk timeNow
    [flyteIdlCore.TaskLog.mk
      ("https://console.cloud.google.com/bigquery?project="
        ++ resourceMeta.JobReference.ProjectId ++ "&j=" ++ j ++ "&page=queryresults")
      "BigQuery Console"]

/-- Function `handleCreateError` (plugin.go, lines 292-317). -/
def handleCreateError (createError : googleapi.Error) (taskInfo : core.TaskInfo) :
    core.PhaseInfo × Option pluginErrors.Error :=
  let code := "http" ++ toString createError.Code
  let userExecutionError := flyteIdlCore.ExecutionError.mk code createError.Message
    flyteIdlCore.ErrorKind.ExecutionError_USER
  let systemExecutionError := flyteIdlCore.ExecutionError.mk code createError.Message
    flyteIdlCore.ErrorKind.ExecutionError_SYSTEM
  if createError.Code ≥ http.StatusBadRequest
      ∧ createError.Code < http.StatusInternalServerError then
    (core.PhaseInfoFailed core.PhasePermanentFailure userExecutionError taskInfo, none)
  else if createError.Code ≥ http.StatusInternalServerError then
    (core.PhaseInfoFailed core.PhaseRetryableFailure systemExecutionError taskInfo, none)
  else
    (core.PhaseInfoFailed core.PhasePermanentFailure systemExecutionError taskInfo, none)

/-- Function `handleErrorResult` (plugin.go, lines 319-438). -/
def handleErrorResult (reason : String) (message : String) (taskInfo : core.TaskInfo) :
    core.PhaseInfo × Option pluginErrors.Error :=
  let userExecutionError := flyteIdlCore.ExecutionError.mk reason message
    flyteIdlCore.ErrorKind.ExecutionError_USER
  let systemExecutionError := flyteIdlCore.ExecutionError.mk reason message
    flyteIdlCore.ErrorKind.ExecutionError_SYSTEM
  match reason with
  | "" => (core.PhaseInfoSuccess taskInfo, none)
  | "accessDenied" =>
    (core.PhaseInfoFailed core.PhasePermanentFailure userExecutionError taskInfo, none)
  | "backendError" =>
    (core.PhaseInfoFailed core.PhaseRetryableFailure systemExecutionError taskInfo, none)
  | "billingNotEnabled" =>
    (core.PhaseInfoFailed core.PhasePermanentFailure userExecutionError taskInfo, none)
  | "blocked" =>
    (core.PhaseInfoFailed core.PhasePermanentFailure userExecutionError taskInfo, none)
  | "duplicate" =>
    (core.PhaseInfoFailed core.PhasePermanentFailure userExecutionError taskInfo, none)
  | "internalError" =>
    (core.PhaseInfoFailed core.PhaseRetryableFailure systemExecutionError taskInfo, none)
  | "invalid" =>
    (core.PhaseInfoFailed core.PhasePermanentFailure userExecutionError taskInfo, none)
  | "invalidQuery" =>
    (core.PhaseInfoFailed core.PhasePermanentFailure userExecutionError taskInfo, none)
  | "invalidUser" =>
    (core.PhaseInfoFailed core.PhaseRetryableFailure systemExecutionError taskInfo, none)
  | "notFound" =>
    (core.PhaseInfoFailed core.PhasePermanentFailure userExecutionError taskInfo, none)
  | "notImplemented" =>
    (core.PhaseInfoFailed core.PhasePermanentFailure userExecutionError taskInfo, none)
  | "quotaExceeded" =>
    (core.PhaseInfoFailed core.PhaseRetryableFailure userExecutionError taskInfo, none)
  | "rateLimitExceeded" =>
    (core.PhaseInfoFailed core.PhaseRetryableFailure userExecutionError taskInfo, none)
  | "resourceInUse" =>
    (core.PhaseInfoFailed core.PhaseRetryableFailure systemExecutionError taskInfo, none)
  | "resourcesExceeded" =>
    (core.PhaseInfoFailed core.PhasePermanentFailure userExecutionError taskInfo, none)
  | "responseTooLarge" =>
    (core.PhaseInfoFailed core.PhasePermanentFailure userExecutionError taskInfo, none)
  | "stopped" =>
    (core.PhaseInfoFailed core.PhasePermanentFailure userExecutionError taskInfo, none)
  | "tableUnavailable" =>
    (core.PhaseInfoFailed core.PhaseRetryableFailure systemExecutionError taskInfo, none)
  | "timeout" =>
    (core.PhaseInfoFailed core.PhasePermanentFailure userExecutionError taskInfo, none)
  | _ =>
    (core.PhaseInfoFailed core.PhasePermanentFailure systemExecutionError taskInfo, none)

/-- Method `Plugin.Status` (plugin.go, lines 256-290) on a resource meta of type
`ResourceMetaWrapper` and a resource pointer of type `ResourceWrapper` that may be
nil; the result is the returned pair `(PhaseInfo, error)`, or a panic. -/
def Plugin.Status (timeNow : Nat) (resourceMeta : ResourceMetaWrapper)
    (resource : Option ResourceWrapper) :
    Except Fault (core.PhaseInfo × Option pluginErrors.Error) :=
  let version := core.DefaultPhaseVersion
  match resource with
  | none => Except.ok (core.PhaseInfoUndefined, none)
  | some resource =>
    let taskInfo := createTaskInfo timeNow resourceMeta
    match resource.CreateError with
    | some createError => Except.ok (handleCreateError createError taskInfo)
    | none =>
      match goDeref resource.Status with
      | Except.error f => Except.error f
      | Except.ok status =>
        if status.State = "PENDING" then
          Except.ok (core.PhaseInfoRunning version taskInfo, none)
        else if status.State = "RUNNING" then
          Except.ok (core.PhaseInfoRunning version taskInfo, none)
        else if status.State = "DONE" then
          match status.ErrorResult with
          | some errorResult =>
            Except.ok (handleErrorResult errorResult.Reason errorResult.Message taskInfo)
          | none => Except.ok (core.PhaseInfoSuccess taskInfo, none)
        else
          Except.ok (core.PhaseInfoUndefined,
            some (pluginErrors.Errorf pluginErrors.ErrorCode.SystemErrorCode
              ("unknown execution phase [" ++ status.State ++ "].")))

/-! ## Vocabulary of the statements -/

/-- Number of unset bits of a bitset at the positions `< p`. -/
def BitSet.unsetBelow (s : BitSet) (p : Nat) : Nat :=
  ((List.range p).filter (fun q => !s.IsSet q)).length

/-- Value `minSuccesses - (originalArraySize - N)` that the spec calls `needed`. -/
def State.needed (s : State) : Int :=
  s.OriginalMinSuccesses - (s.OriginalArraySize - s.ExecutionArraySize)

/-- The configuration of a state is in the range where the `int64` arithmetic of the
threshold does not wrap: the array size is a non-negative `int64` and both
subtractions stay within `int64`. -/
def State.ThresholdInRange (s : State) : Prop :=
  0 ≤ s.ExecutionArraySize ∧ s.ExecutionArraySize < 2 ^ 63 ∧
  -(2 ^ 63) ≤ s.OriginalMinSuccesses - s.OriginalArraySize ∧
  s.OriginalMinSuccesses - s.OriginalArraySize < 2 ^ 63 ∧
  -(2 ^ 63) ≤ s.OriginalMinSuccesses - s.OriginalArraySize - s.ExecutionArraySize

/-- The prior array of a state has exactly `N` items, `N` the execution array
size. -/
def State.ArrayHasSize (s : State) : Prop :=
  0 ≤ s.ExecutionArraySize ∧
  s.ArrayStatus.Detailed.GetItems.length = s.ExecutionArraySize.toNat

/-- Every populated sub-job slot of a job record holds one of the nine phases. -/
def Job.PhasesValid (job : Job) : Prop :=
  ∀ sj : SubJob, some sj ∈ job.SubJobs → sj.Status.Phase.IsAPhase = true

/-- A round on this state and job record meets no out-of-range index and no empty
slot: the prior array has at most `N` items, each the code of a phase, and every
child that is not terminal in the prior array has a populated slot. -/
def RoundWellFormed (s : State) (job : Job) : Prop :=
  0 ≤ s.ExecutionArraySize ∧
  s.ArrayStatus.Detailed.GetItems.length ≤ s.ExecutionArraySize.toNat ∧
  (∀ item ∈ s.ArrayStatus.Detailed.GetItems, item < 9) ∧
  (∀ (i : Nat) (item : Item), s.ArrayStatus.Detailed.GetItems.get? i = some item →
    Phase.IsTerminal (item : Int) = false → ∃ sj : SubJob, job.SubJobs.get? i = some (some sj))

/-- Phase that the loop records for child `childIdx` whose prior item is
`existingPhaseIdx`: the prior phase when it is terminal, otherwise the phase of
the sub-job slot. -/
def recordedPhase (job : Job) (childIdx : Nat) (existingPhaseIdx : Item) : Except Fault Phase := do
  let existingPhase ← goIndex core.Phases (existingPhaseIdx : Int)
  if existingPhase.IsTerminal then pure existingPhase
  else
    let subJobPtr ← goIndex job.SubJobs (childIdx : Int)
    let subJob ← goDeref subJobPtr
    pure subJob.Status.Phase

/-- Entries that the loop collects for child `childIdx`. -/
def collectedFor (job : Job) (childIdx : Nat) (existingPhaseIdx : Item) : ErrorMessageCollector :=
  match goIndex core.Phases (existingPhaseIdx : Int) with
  | Except.error _ => []
  | Except.ok existingPhase =>
    if existingPhase.IsTerminal then []
    else match job.SubJobs.get? childIdx with
      | some (some subJob) =>
        if subJob.Status.Phase.IsFailure ∧ subJob.Status.Message.length > 0 then
          [((childIdx : Int), subJob.Status.Message)]
        else []
      | _ => []

/-- Phases that the loop records for the children `childIdx, childIdx + 1, ...`
with the given prior items. -/
def recordedPhases (job : Job) : List Item → Nat → Except Fault (List Phase)
  | [], _ => Except.ok []
  | item :: rest, childIdx =>
    match recordedPhase job childIdx item with
    | Except.error f => Except.error f
    | Except.ok e =>
      match recordedPhases job rest (childIdx + 1) with
      | Except.error f => Except.error f
      | Except.ok es => Except.ok (e :: es)

/-- Entries that the loop collects for the children `childIdx, childIdx + 1, ...`. -/
def collectedAll (job : Job) : List Item → Nat → ErrorMessageCollector
  | [], _ => []
  | item :: rest, childIdx => collectedFor job childIdx item ++ collectedAll job rest (childIdx + 1)

/-- Items of an array after the writes `SetItem(k + j, vs[j])`. -/
def writeFrom (items : List Item) (k : Nat) (vs : List Item) : List Item :=
  items.take k ++ vs.map (fun v => v % 2 ^ 4) ++ items.drop (k + vs.length)

/-! ## Concrete rounds used as examples -/

/-- A state about to be reconciled for the first time: `n` children, all Undefined,
nothing served from a prior cache. -/
def exampleState (n : Nat) (minSuccesses originalArraySize : Int) : State :=
  { CurrentPhase := arrayCore.Phase.PhaseCheckingSubTaskExecutions
    PhaseVersion := 0
    Reason := ""
    ExecutionArraySize := n
    OriginalArraySize := originalArraySize
    OriginalMinSuccesses := minSuccesses
    ArrayStatus := ArrayStatus.mk [] (arrayCore.NewPhasesCompactArray n)
    IndexesToCache := BitSet.mk (List.replicate n false)
    ExternalJobID := some "job-1" }

/-- A populated sub-job slot with the given phase and message. -/
def exampleSlot (p : Phase) (message : String) : Option SubJob :=
  some (SubJob.mk "sub" [] (JobStatus.mk p message))

/-- A job store that holds the given record under every key. -/
def exampleStore (job : Job) : JobStore :=
  JobStore.mk (fun _ => some job) (fun _ r => Except.ok r)

/-- Task metadata of the examples. -/
def exampleMeta : TaskExecutionMetadata := TaskExecutionMetadata.mk "exec-n0" "owner"

/-- Job record of the fail-fast example: 3 children PermanentFailure, 7 Running. -/
def failFastJob : Job :=
  Job.mk "job-1" "owner" (List.replicate 3 (exampleSlot 8 "boom") ++ List.replicate 7 (exampleSlot 5 ""))

/-- Job record of the minimum-successes example: 8 children Success, 2
PermanentFailure. -/
def enoughSuccessJob : Job :=
  Job.mk "job-1" "owner" (List.replicate 8 (exampleSlot 6 "") ++ List.replicate 2 (exampleSlot 8 "bad"))

/-- Job record with a single child in PermanentFailure with a message. -/
def singleFailureJob : Job := Job.mk "job-1" "owner" [exampleSlot 8 "boom"]

/-- Bitset of length 5 with the bits 1 and 3 set. -/
def exampleIndexSet : BitSet := BitSet.mk [false, true, false, true, false]

/-- State after the first round on `singleFailureJob` from `exampleState 1 3 1`, with
the given error text. -/
def failedState (reason : String) : State :=
  { CurrentPhase := arrayCore.Phase.PhasePermanentFailure
    PhaseVersion := 0
    Reason := reason
    ExecutionArraySize := 1
    OriginalArraySize := 1
    OriginalMinSuccesses := 3
    ArrayStatus := ArrayStatus.mk [(8, 1)] (CompactArray.mk [8])
    IndexesToCache := BitSet.mk [false]
    ExternalJobID := some "job-1" }

/-- A state of two children whose prior array holds Success for child 0 and
Undefined for child 1. -/
def carriedState : State :=
  { exampleState 2 2 2 with
    ArrayStatus := ArrayStatus.mk [(6, 1), (0, 1)] (CompactArray.mk [6, 0]) }

/-- A job record of two slots, the first empty, the second Running. -/
def carriedJob : Job := Job.mk "job-1" "owner" [none, exampleSlot 5 ""]

/-- A job store with no record, whose `GetOrCreate` registers what it is given. -/
def emptyStore : JobStore := JobStore.mk (fun _ => none) (fun _ r => Except.ok r)

/-- Pair that a round collects for child `i` whose prior item is `item`: the child
index and the message of its sub-job slot, when the prior phase is not terminal and
the sub-job phase is a failure with a non-empty message. -/
def collectedPair (job : Job) (i : Nat) (item : Item) : Option (Int × String) :=
  match job.SubJobs[i]? with
  | some (some subJob) =>
    if Phase.IsTerminal (item : Int) = false ∧ subJob.Status.Phase.IsFailure = true
        ∧ subJob.Status.Message.length > 0 then
      some ((i : Int), subJob.Status.Message)
    else none
  | _ => none

/-- Pairs collected in a round on this state and job record, in increasing child
order. -/
def collectedThisRound (s : State) (job : Job) : ErrorMessageCollector :=
  (s.ArrayStatus.Detailed.GetItems.enumFrom 0).filterMap (fun e => collectedPair job e.1 e.2)

/-- Job record of two children, both Running. -/
def checkingJob : Job := Job.mk "job-1" "owner" [exampleSlot 5 "", exampleSlot 5 ""]

/-- Resource meta of the BigQuery examples. -/
def exampleResourceMeta : ResourceMetaWrapper :=
  ResourceMetaWrapper.mk "account" "namespace" (bigquery.JobReference.mk "job" "US" "project")

/-- Case labels of the `switch` of `handleErrorResult` (plugin.go, lines 343-432), in
source order: the reasons that the function lists. -/
def handleErrorResult.listedReasons : List String :=
  ["", "accessDenied", "backendError", "billingNotEnabled", "blocked", "duplicate",
    "internalError", "invalid", "invalidQuery", "invalidUser", "notFound", "notImplemented",
    "quotaExceeded", "rateLimitExceeded", "resourceInUse", "resourcesExceeded",
    "responseTooLarge", "stopped", "tableUnavailable", "timeout"]

/-- A job status in state `DONE` whose error result has the given reason and
message. -/
def doneWithError (reason message : String) : bigquery.JobStatus :=
  bigquery.JobStatus.mk "DONE" (some (bigquery.ErrorProto.mk reason message))

/-! ## Theorems -/

theorem goIndex_natCast {α : Type} (xs : List α) (k : Nat) :
    goIndex xs (k : Int) =
      match xs[k]? with
      | some x => Except.ok x
      | none => Except.error Fault.indexOutOfRange := by
  unfold goIndex
  have : ¬ ((k : Int) < 0) := by omega
  simp [this]

theorem SetItem_natCast (a : CompactArray) (k : Nat) (v : Item) :
    a.SetItem (k : Int) v =
      if k < a.Items.length then Except.ok (CompactArray.mk (a.Items.set k (v % 2 ^ 4)))
      else Except.error Fault.indexOutOfRange := by
  unfold CompactArray.SetItem
  by_cases h : k < a.Items.length
  · have : ¬ ((k : Int) < 0 ∨ (k : Int) ≥ (a.Items.length : Int)) := by omega
    simp [this, h]
  · have : ((k : Int) < 0 ∨ (k : Int) ≥ (a.Items.length : Int)) := by omega
    simp [this, h]

theorem body_ok (job : Job) (cs : State) (k : Nat) (item : Item) (st st1 : LoopState)
    (h : CheckSubTasksState.body job cs k item st = Except.ok st1) :
    ∃ e, recordedPhase job k item = Except.ok e ∧ k < st.newArrayStatus.Detailed.Items.length ∧
      st1.msg = st.msg ++ collectedFor job k item ∧
      st1.newArrayStatus = ArrayStatus.mk (ArraySummary.Inc st.newArrayStatus.Summary e)
        (CompactArray.mk (st.newArrayStatus.Detailed.Items.set k (toUint64 e % 2 ^ 4))) := by
  unfold CheckSubTasksState.body at h
  unfold recordedPhase collectedFor
  simp only [goIndex_natCast, SetItem_natCast, bind, Except.bind, pure, Except.pure,
    List.get?_eq_getElem?] at h ⊢
  cases h0 : core.Phases[item]? with
  | none => simp [h0] at h
  | some e0 =>
    simp only [h0] at h ⊢
    cases ht : Phase.IsTerminal e0 with
    | true =>
      simp only [ht, if_true] at h ⊢
      by_cases hk : k < st.newArrayStatus.Detailed.Items.length
      · simp only [hk, if_true] at h
        cases h
        exact ⟨e0, rfl, hk, by simp, rfl⟩
      · simp [hk] at h
    | false =>
      simp only [ht] at h ⊢
      cases hs : job.SubJobs[k]? with
      | none => simp [hs] at h
      | some ptr =>
        cases ptr with
        | none => simp [hs, goDeref] at h
        | some sj =>
          simp only [hs, goDeref] at h ⊢
          by_cases hk : k < st.newArrayStatus.Detailed.Items.length
          · simp only [hk, if_true] at h
            cases h
            refine ⟨sj.Status.Phase, by simp, hk, ?_, rfl⟩
            by_cases hf : Phase.IsFailure sj.Status.Phase = true
            · by_cases hm : sj.Status.Message.length > 0
              · simp [hf, hm, ErrorMessageCollector.Collect]
              · simp [hf, hm]
            · simp [hf]
          · simp [hk] at h

theorem body_total (job : Job) (cs : State) (k : Nat) (item : Item) (st : LoopState) (e : Phase)
    (he : recordedPhase job k item = Except.ok e)
    (hk : k < st.newArrayStatus.Detailed.Items.length) :
    ∃ st1, CheckSubTasksState.body job cs k item st = Except.ok st1 := by
  unfold recordedPhase at he
  unfold CheckSubTasksState.body
  simp only [goIndex_natCast, SetItem_natCast, bind, Except.bind, pure, Except.pure,
    List.get?_eq_getElem?] at he ⊢
  cases h0 : core.Phases[item]? with
  | none => simp [h0] at he
  | some e0 =>
    simp only [h0] at he ⊢
    cases ht : Phase.IsTerminal e0 with
    | true => simp [hk]
    | false =>
      simp only [ht] at he ⊢
      cases hs : job.SubJobs[k]? with
      | none => simp [hs] at he
      | some ptr =>
        cases ptr with
        | none => simp [hs, goDeref] at he
        | some sj => simp [goDeref, hk]

theorem writeFrom_step (items : List Item) (k : Nat) (v : Item) (vs : List Item)
    (hk : k < items.length) :
    writeFrom (items.set k (v % 2 ^ 4)) (k + 1) vs = writeFrom items k (v :: vs) := by
  unfold writeFrom
  have h1 : List.take (k + 1) (items.set k (v % 2 ^ 4)) = List.take k items ++ [v % 2 ^ 4] := by
    rw [List.set_eq_take_append_cons_drop, if_pos hk]
    rw [List.take_append_eq_append_take]
    simp [List.length_take, Nat.min_eq_left (Nat.le_of_lt hk)]
  have h2 : List.drop (k + 1 + vs.length) (items.set k (v % 2 ^ 4))
      = List.drop (k + (v :: vs).length) items := by
    rw [List.set_eq_take_append_cons_drop, if_pos hk]
    rw [List.drop_append_eq_append_drop]
    simp [List.length_take, Nat.min_eq_left (Nat.le_of_lt hk)]
    have : k + 1 + vs.length - k = (vs.length + 1) := by omega
    rw [this]
    have hd : List.drop (k + 1 + vs.length) (List.take k items) = [] := by
      apply List.drop_eq_nil_of_le
      simp [List.length_take]
      omega
    rw [hd, List.drop_succ_cons, List.drop_drop]
    simp only [List.nil_append]
    congr 1
    omega
  rw [h1, h2]
  simp

theorem loop_ok (job : Job) (cs : State) :
    ∀ (items : List Item) (k : Nat) (st st1 : LoopState),
      CheckSubTasksState.loop job cs items k st = Except.ok st1 →
      ∃ es, recordedPhases job items k = Except.ok es ∧ es.length = items.length ∧
        (items ≠ [] → k + items.length ≤ st.newArrayStatus.Detailed.Items.length) ∧
        st1.msg = st.msg ++ collectedAll job items k ∧
        st1.newArrayStatus = ArrayStatus.mk (es.foldl ArraySummary.Inc st.newArrayStatus.Summary)
          (CompactArray.mk (writeFrom st.newArrayStatus.Detailed.Items k (es.map toUint64))) := by
  intro items
  induction items with
  | nil =>
    intro k st st1 h
    simp only [CheckSubTasksState.loop] at h
    cases h
    refine ⟨[], rfl, rfl, by simp, by simp [collectedAll], ?_⟩
    simp [writeFrom]
  | cons item rest ih =>
    intro k st st1 h
    simp only [CheckSubTasksState.loop] at h
    cases hb : CheckSubTasksState.body job cs k item st with
    | error f => simp [hb] at h
    | ok st0 =>
      simp only [hb] at h
      obtain ⟨e, he, hk, hmsg, hst⟩ := body_ok job cs k item st st0 hb
      obtain ⟨es, hes, hlen, hbound, hmsg1, hst1⟩ := ih (k + 1) st0 st1 h
      refine ⟨e :: es, ?_, by simp [hlen], ?_, ?_, ?_⟩
      · simp [recordedPhases, he, hes]
      · intro _
        cases rest with
        | nil => simp; omega
        | cons r rs =>
          have := hbound (by simp)
          rw [hst] at this
          simp at this ⊢
          omega
      · rw [hmsg1, hmsg]
        simp [collectedAll]
      · rw [hst1, hst]
        simp only [List.foldl_cons, List.map_cons]
        rw [writeFrom_step _ _ _ _ hk]

theorem loop_total (job : Job) (cs : State) :
    ∀ (items : List Item) (k : Nat) (st : LoopState) (es : List Phase),
      recordedPhases job items k = Except.ok es →
      k + items.length ≤ st.newArrayStatus.Detailed.Items.length →
      ∃ st1, CheckSubTasksState.loop job cs items k st = Except.ok st1 := by
  intro items
  induction items with
  | nil =>
    intro k st es _ _
    exact ⟨st, rfl⟩
  | cons item rest ih =>
    intro k st es hes hlen
    simp only [recordedPhases] at hes
    cases he : recordedPhase job k item with
    | error f => simp [he] at hes
    | ok e =>
      simp only [he] at hes
      cases hr : recordedPhases job rest (k + 1) with
      | error f => simp [hr] at hes
      | ok es1 =>
        simp only [List.length_cons] at hlen
        obtain ⟨st0, hb⟩ := body_total job cs k item st e he (by omega)
        obtain ⟨_, _, _, _, hst⟩ := body_ok job cs k item st st0 hb
        obtain ⟨st1, h1⟩ := ih (k + 1) st0 es1 hr (by rw [hst]; simp; omega)
        exact ⟨st1, by simp [CheckSubTasksState.loop, hb, h1]⟩

theorem finish_eq (cfg : Config) (cs : State) (st : LoopState) :
    CheckSubTasksState.finish cfg cs st
      = CheckSubTasksState.finish cfg cs (LoopState.mk [] st.msg st.newArrayStatus) := rfl

theorem finish_phase (cfg : Config) (cs : State) (st : LoopState) :
    (CheckSubTasksState.finish cfg cs st).CurrentPhase
      = arrayCore.SummaryToPhase (CheckSubTasksState.threshold cs) st.newArrayStatus.Summary := by
  unfold CheckSubTasksState.finish
  simp only [State.SetPhase, State.SetReason, State.SetArrayStatus]
  split <;> simp_all

theorem finish_arrayStatus (cfg : Config) (cs : State) (st : LoopState) :
    (CheckSubTasksState.finish cfg cs st).ArrayStatus = st.newArrayStatus := by
  unfold CheckSubTasksState.finish
  simp only [State.SetPhase, State.SetReason, State.SetArrayStatus]
  split <;> split <;> rfl

theorem round_present (tm : TaskExecutionMetadata) (js : JobStore) (cfg : Config) (cs : State)
    (job : Job) (hget : js.Get tm.GeneratedName = some job) (S1 : State)
    (hres : (CheckSubTasksState tm js cfg cs).result = Except.ok S1) :
    0 ≤ cs.ExecutionArraySize ∧
    ∃ es, recordedPhases job cs.ArrayStatus.Detailed.GetItems 0 = Except.ok es ∧
      es.length = cs.ArrayStatus.Detailed.GetItems.length ∧
      (cs.ArrayStatus.Detailed.GetItems ≠ [] →
        cs.ArrayStatus.Detailed.GetItems.length ≤ cs.ExecutionArraySize.toNat) ∧
      S1 = CheckSubTasksState.finish cfg cs (LoopState.mk []
        (collectedAll job cs.ArrayStatus.Detailed.GetItems 0)
        (ArrayStatus.mk (es.foldl ArraySummary.Inc [])
          (CompactArray.mk (writeFrom (List.replicate cs.ExecutionArraySize.toNat 0) 0
            (es.map toUint64))))) := by
  unfold CheckSubTasksState at hres
  by_cases hN : cs.ExecutionArraySize < 0
  · simp [hN] at hres
  · simp only [hN, if_false, hget] at hres
    refine ⟨by omega, ?_⟩
    cases hl : CheckSubTasksState.loop job cs cs.ArrayStatus.Detailed.GetItems 0
        (LoopState.mk [] errorcollector.NewErrorMessageCollector
          (ArrayStatus.mk [] (arrayCore.NewPhasesCompactArray cs.ExecutionArraySize.toNat))) with
    | error f => simp [hl] at hres
    | ok st =>
      simp only [hl] at hres
      obtain ⟨es, hes, hlen, hbound, hmsg, hst⟩ := loop_ok job cs _ _ _ _ hl
      refine ⟨es, hes, hlen, ?_, ?_⟩
      · intro hne
        have := hbound hne
        simpa [arrayCore.NewPhasesCompactArray] using this
      · injection hres with hres
        rw [← hres, finish_eq, hmsg, hst]
        simp [errorcollector.NewErrorMessageCollector, arrayCore.NewPhasesCompactArray]

theorem round_total (tm : TaskExecutionMetadata) (js : JobStore) (cfg : Config) (cs : State)
    (job : Job) (hget : js.Get tm.GeneratedName = some job) (hN : 0 ≤ cs.ExecutionArraySize)
    (es : List Phase) (hes : recordedPhases job cs.ArrayStatus.Detailed.GetItems 0 = Except.ok es)
    (hlen : cs.ArrayStatus.Detailed.GetItems.length ≤ cs.ExecutionArraySize.toNat) :
    ∃ S1, (CheckSubTasksState tm js cfg cs).result = Except.ok S1 := by
  unfold CheckSubTasksState
  have hN' : ¬ cs.ExecutionArraySize < 0 := by omega
  simp only [hN', if_false, hget]
  obtain ⟨st, hst⟩ := loop_total job cs cs.ArrayStatus.Detailed.GetItems 0
    (LoopState.mk [] errorcollector.NewErrorMessageCollector
      (ArrayStatus.mk [] (arrayCore.NewPhasesCompactArray cs.ExecutionArraySize.toNat))) es hes
    (by simpa [arrayCore.NewPhasesCompactArray] using hlen)
  rw [hst]
  exact ⟨_, rfl⟩

theorem Phases_getElem_of_lt (item : Nat) (h : item < 9) : core.Phases[item]? = some (item : Int) := by
  interval_cases item <;> rfl

theorem recordedPhases_of_wellFormed (job : Job) :
    ∀ (items : List Item) (k : Nat), (∀ item ∈ items, item < 9) →
      (∀ (i : Nat) (item : Item), items.get? i = some item →
        Phase.IsTerminal (item : Int) = false → ∃ sj : SubJob, job.SubJobs.get? (k + i) = some (some sj)) →
      ∃ es, recordedPhases job items k = Except.ok es := by
  intro items
  induction items with
  | nil => intro k _ _; exact ⟨[], rfl⟩
  | cons item rest ih =>
    intro k h9 hslot
    have hI := Phases_getElem_of_lt item (h9 item (by simp))
    obtain ⟨es, hes⟩ := ih (k + 1) (fun x hx => h9 x (by simp [hx]))
      (fun i x hx ht => by
        have := hslot (i + 1) x (by simpa using hx) ht
        have e : k + 1 + i = k + (i + 1) := by omega
        rw [e]; exact this)
    have he : ∃ e, recordedPhase job k item = Except.ok e := by
      unfold recordedPhase
      simp only [goIndex_natCast, hI, bind, Except.bind, pure, Except.pure]
      cases ht : Phase.IsTerminal (item : Int) with
      | true => exact ⟨(item : Int), by simp⟩
      | false =>
        obtain ⟨sj, hsj⟩ := hslot 0 item (by simp) ht
        simp only [List.get?_eq_getElem?, Nat.add_zero] at hsj
        simp [hsj, goDeref]
    obtain ⟨e, he⟩ := he
    exact ⟨e :: es, by simp [recordedPhases, he, hes]⟩

theorem round_total_of_wellFormed (tm : TaskExecutionMetadata) (js : JobStore) (cfg : Config)
    (cs : State) (job : Job) (hget : js.Get tm.GeneratedName = some job)
    (hwf : RoundWellFormed cs job) :
    ∃ S1, (CheckSubTasksState tm js cfg cs).result = Except.ok S1 := by
  obtain ⟨hN, hlen, h9, hslot⟩ := hwf
  obtain ⟨es, hes⟩ := recordedPhases_of_wellFormed job cs.ArrayStatus.Detailed.GetItems 0 h9
    (fun i x hx ht => by simpa using hslot i x hx ht)
  exact round_total tm js cfg cs job hget hN es hes hlen

theorem toInt64_of_inRange (x : Int) (h1 : -(2 ^ 63) ≤ x) (h2 : x < 2 ^ 63) : toInt64 x = x := by
  unfold toInt64
  norm_num at h1 h2 ⊢
  omega

theorem threshold_exact (cs : State) (h : cs.ThresholdInRange) :
    CheckSubTasksState.threshold cs
      = cs.OriginalMinSuccesses - cs.OriginalArraySize - cs.ExecutionArraySize := by
  obtain ⟨h0, h1, h2, h3, h4⟩ := h
  unfold CheckSubTasksState.threshold
  rw [toInt64_of_inRange _ h2 h3, toInt64_of_inRange cs.ExecutionArraySize (by omega) h1,
    toInt64_of_inRange _ h4 (by omega)]

theorem threshold_le_needed (cs : State) (h : cs.ThresholdInRange) :
    CheckSubTasksState.threshold cs ≤ cs.needed := by
  rw [threshold_exact cs h]
  obtain ⟨h0, _⟩ := h
  unfold State.needed
  omega

/-- C6: minimum successes reached. In a round where the job record is present and the
configuration is in `int64` range, a well-formed round returns a state; whenever a
round returns a state whose summary counts at least
`needed = minSuccesses - (originalArraySize - N)` children in Success, the
aggregate phase is Success; and the round with N = 10, originalArraySize = 10,
minSuccesses = 8, 8 children Success and 2 PermanentFailure returns Success. -/
theorem CheckSubTasksState_enough_successes (tm : TaskExecutionMetadata) (js : JobStore)
    (cfg : Config) (cs : State) (job : Job) (hget : js.Get tm.GeneratedName = some job)
    (hrange : cs.ThresholdInRange) :
    (RoundWellFormed cs job → ∃ S1, (CheckSubTasksState tm js cfg cs).result = Except.ok S1) ∧
    (∀ S1, (CheckSubTasksState tm js cfg cs).result = Except.ok S1 →
      cs.needed ≤ ArraySummary.count S1.ArrayStatus.Summary 6 →
      S1.CurrentPhase = arrayCore.Phase.PhaseSuccess) ∧
    ((CheckSubTasksState exampleMeta (exampleStore enoughSuccessJob) (Config.mk 100)
        (exampleState 10 8 10)).result.map (fun s => (s.CurrentPhase, s.ArrayStatus.Summary))
      = Except.ok (arrayCore.Phase.PhaseSuccess, [(6, 8), (8, 2)])) := by
  refine ⟨round_total_of_wellFormed tm js cfg cs job hget, ?_, by rfl⟩
  intro S1 hres hcount
  obtain ⟨_, es, _, _, _, hS1⟩ := round_present tm js cfg cs job hget S1 hres
  have hle := threshold_le_needed cs hrange
  rw [hS1, finish_arrayStatus] at hcount
  rw [hS1, finish_phase]
  unfold arrayCore.SummaryToPhase
  exact if_pos (le_trans hle hcount)

theorem exampleState_inRange : (exampleState 10 8 10).ThresholdInRange := by
  unfold State.ThresholdInRange exampleState
  norm_num

theorem CheckSubTasksState_enough_successes_witness :
    (exampleStore enoughSuccessJob).Get exampleMeta.GeneratedName = some enoughSuccessJob ∧
    (exampleState 10 8 10).ThresholdInRange ∧
    ((RoundWellFormed (exampleState 10 8 10) enoughSuccessJob →
      ∃ S1, (CheckSubTasksState exampleMeta (exampleStore enoughSuccessJob) (Config.mk 100)
        (exampleState 10 8 10)).result = Except.ok S1) ∧
    (∀ S1, (CheckSubTasksState exampleMeta (exampleStore enoughSuccessJob) (Config.mk 100)
        (exampleState 10 8 10)).result = Except.ok S1 →
      (exampleState 10 8 10).needed ≤ ArraySummary.count S1.ArrayStatus.Summary 6 →
      S1.CurrentPhase = arrayCore.Phase.PhaseSuccess) ∧
    ((CheckSubTasksState exampleMeta (exampleStore enoughSuccessJob) (Config.mk 100)
        (exampleState 10 8 10)).result.map (fun s => (s.CurrentPhase, s.ArrayStatus.Summary))
      = Except.ok (arrayCore.Phase.PhaseSuccess, [(6, 8), (8, 2)]))) :=
  ⟨rfl, exampleState_inRange,
    CheckSubTasksState_enough_successes exampleMeta (exampleStore enoughSuccessJob) (Config.mk 100)
      (exampleState 10 8 10) enoughSuccessJob rfl exampleState_inRange⟩

/-- C8: restart recovery. When the job store has no record for the generated name (the
prior state having an external job id and a non-negative array size), the round
makes exactly one `GetOrCreate` call for that key, with a record carrying the
external job id, the owner reference and exactly N empty sub-job slots; when the
call succeeds the round returns the prior state unchanged, when it fails the
round returns that error and no state. -/
theorem CheckSubTasksState_restart_recovery (tm : TaskExecutionMetadata) (js : JobStore)
    (cfg : Config) (cs : State) (id : String) (habsent : js.Get tm.GeneratedName = none)
    (hid : cs.ExternalJobID = some id) (hN : 0 ≤ cs.ExecutionArraySize) :
    ∃ record : Job, record.ID = id ∧ record.OwnerReference = tm.OwnerID ∧
      (record.SubJobs.length : Int) = cs.ExecutionArraySize ∧
      (∀ slot ∈ record.SubJobs, slot = none) ∧
      (CheckSubTasksState tm js cfg cs).calls = [StoreCall.GetOrCreate tm.GeneratedName record] ∧
      (∀ j, js.GetOrCreate tm.GeneratedName record = Except.ok j →
        (CheckSubTasksState tm js cfg cs).result = Except.ok cs) ∧
      (∀ e, js.GetOrCreate tm.GeneratedName record = Except.error e →
        (CheckSubTasksState tm js cfg cs).result = Except.error (Fault.err e)) := by
  have hN' : ¬ cs.ExecutionArraySize < 0 := by omega
  refine ⟨Job.mk id tm.OwnerID (List.replicate cs.ExecutionArraySize.toNat none), rfl, rfl,
    ?_, ?_, ?_, ?_, ?_⟩
  · simp [Int.toNat_of_nonneg hN]
  · intro slot hs
    exact (List.mem_replicate.1 hs).2
  · unfold CheckSubTasksState
    simp only [hN', if_false, habsent, hid]
    cases js.GetOrCreate tm.GeneratedName (Job.mk id tm.OwnerID
      (List.replicate cs.ExecutionArraySize.toNat none)) <;> rfl
  · intro j hj
    unfold CheckSubTasksState
    simp only [hN', if_false, habsent, hid, hj]
  · intro e he
    unfold CheckSubTasksState
    simp only [hN', if_false, habsent, hid, he]

theorem Phases_getElem_some (item : Nat) (e0 : Phase) (h : core.Phases[item]? = some e0) :
    e0 = (item : Int) ∧ item < 9 := by
  have hlt : item < 9 := by
    by_contra hc
    have : core.Phases[item]? = none := List.getElem?_eq_none (by simp [core.Phases]; omega)
    rw [this] at h
    cases h
  rw [Phases_getElem_of_lt item hlt] at h
  injection h with h
  exact ⟨h.symm, hlt⟩

theorem isTerminal_natCast (item : Nat) :
    Phase.IsTerminal (item : Int) = true ↔ item = 6 ∨ item = 7 ∨ item = 8 := by
  unfold Phase.IsTerminal
  simp only [Bool.or_eq_true, beq_iff_eq]
  change (((item : Int) = 6 ∨ (item : Int) = 7) ∨ (item : Int) = 8) ↔ _
  omega

theorem recordedPhases_get (job : Job) :
    ∀ (items : List Item) (k : Nat) (es : List Phase), recordedPhases job items k = Except.ok es →
      ∀ (i : Nat) (item : Item), items[i]? = some item →
        ∃ e, es[i]? = some e ∧ recordedPhase job (k + i) item = Except.ok e := by
  intro items
  induction items with
  | nil => intro k es _ i item hi; simp at hi
  | cons x rest ih =>
    intro k es hes i item hi
    simp only [recordedPhases] at hes
    cases he : recordedPhase job k x with
    | error f => simp [he] at hes
    | ok e =>
      simp only [he] at hes
      cases hr : recordedPhases job rest (k + 1) with
      | error f => simp [hr] at hes
      | ok es1 =>
        simp only [hr] at hes
        injection hes with hes
        subst hes
        cases i with
        | zero =>
          simp at hi
          subst hi
          exact ⟨e, by simp, by simpa using he⟩
        | succ i =>
          simp only [List.getElem?_cons_succ] at hi ⊢
          obtain ⟨e1, h1, h2⟩ := ih (k + 1) es1 hr i item hi
          exact ⟨e1, h1, by rw [show k + (i + 1) = k + 1 + i by omega]; exact h2⟩

theorem recordedPhase_terminal (job : Job) (k : Nat) (item : Nat)
    (ht : Phase.IsTerminal (item : Int) = true) :
    recordedPhase job k item = Except.ok (item : Int) := by
  have h9 : item < 9 := by
    rcases (isTerminal_natCast item).1 ht with h | h | h <;> omega
  unfold recordedPhase
  simp [goIndex_natCast, Phases_getElem_of_lt item h9, bind, Except.bind, pure, Except.pure, ht]

theorem writeFrom_zero_get (n : Nat) (vs : List Item) (i : Nat) (v : Item) (h : vs[i]? = some v) :
    (writeFrom (List.replicate n 0) 0 vs)[i]? = some (v % 2 ^ 4) := by
  unfold writeFrom
  simp only [List.take_zero, List.nil_append, Nat.zero_add]
  have hi : i < vs.length := by
    by_contra hc
    rw [List.getElem?_eq_none (by omega)] at h
    cases h
  rw [List.getElem?_append_left (by simpa using hi)]
  simp [h]

theorem body_congr (job job1 : Job) (cs : State) (k : Nat) (item : Item) (st : LoopState)
    (h : ∀ e0, core.Phases[item]? = some e0 → Phase.IsTerminal e0 = false →
      job1.SubJobs[k]? = job.SubJobs[k]?) :
    CheckSubTasksState.body job1 cs k item st = CheckSubTasksState.body job cs k item st := by
  unfold CheckSubTasksState.body
  simp only [goIndex_natCast, bind, Except.bind, pure, Except.pure]
  cases h0 : core.Phases[item]? with
  | none => rfl
  | some e0 =>
    simp only []
    cases ht : Phase.IsTerminal e0 with
    | true => rfl
    | false =>
      rw [h e0 h0 ht]

theorem loop_congr (job job1 : Job) (cs : State) :
    ∀ (items : List Item) (k : Nat) (st : LoopState),
      (∀ (j : Nat) (item : Item), items[j]? = some item → ∀ e0, core.Phases[item]? = some e0 →
        Phase.IsTerminal e0 = false → job1.SubJobs[k + j]? = job.SubJobs[k + j]?) →
      CheckSubTasksState.loop job1 cs items k st = CheckSubTasksState.loop job cs items k st := by
  intro items
  induction items with
  | nil => intro k st _; rfl
  | cons x rest ih =>
    intro k st h
    simp only [CheckSubTasksState.loop]
    rw [body_congr job job1 cs k x st (fun e0 h0 ht => by simpa using h 0 x (by simp) e0 h0 ht)]
    cases CheckSubTasksState.body job cs k x st with
    | error f => rfl
    | ok st0 =>
      simp only []
      exact ih (k + 1) st0 (fun j item hj e0 h0 ht => by
        have := h (j + 1) item (by simpa using hj) e0 h0 ht
        rw [show k + 1 + j = k + (j + 1) by omega]
        exact this)

/-- C9: terminal children are carried forward. In a round where the job record is
present, for a child `i` whose prior item is a terminal phase: a well-formed round
returns a state; every returned state holds the same phase at `i`; and the result
of the round is the same for every job record that differs from this one at most
in slot `i` (the slot is not read). -/
theorem CheckSubTasksState_terminal_carried_forward (tm : TaskExecutionMetadata) (js : JobStore)
    (cfg : Config) (cs : State) (job : Job) (hget : js.Get tm.GeneratedName = some job)
    (i : Nat) (item : Item) (hitem : cs.ArrayStatus.Detailed.GetItems[i]? = some item)
    (hterm : Phase.IsTerminal (item : Int) = true) :
    (RoundWellFormed cs job → ∃ S1, (CheckSubTasksState tm js cfg cs).result = Except.ok S1) ∧
    (∀ S1, (CheckSubTasksState tm js cfg cs).result = Except.ok S1 →
      S1.ArrayStatus.Detailed.GetItems[i]? = some item) ∧
    (∀ (js1 : JobStore) (job1 : Job), js1.Get tm.GeneratedName = some job1 →
      (∀ j, j ≠ i → job1.SubJobs[j]? = job.SubJobs[j]?) →
      (CheckSubTasksState tm js1 cfg cs).result = (CheckSubTasksState tm js cfg cs).result) := by
  refine ⟨round_total_of_wellFormed tm js cfg cs job hget, ?_, ?_⟩
  · intro S1 hres
    obtain ⟨_, es, hes, _, _, hS1⟩ := round_present tm js cfg cs job hget S1 hres
    obtain ⟨e, he, hrec⟩ := recordedPhases_get job _ 0 es hes i item hitem
    rw [recordedPhase_terminal job (0 + i) item hterm] at hrec
    injection hrec with hrec
    subst hrec
    rw [hS1, finish_arrayStatus]
    simp only [CompactArray.GetItems]
    rw [writeFrom_zero_get _ (es.map toUint64) i (toUint64 (item : Int)) (by simp [he])]
    have h9 : item = 6 ∨ item = 7 ∨ item = 8 := (isTerminal_natCast item).1 hterm
    rcases h9 with h | h | h <;> subst h <;> rfl
  · intro js1 job1 hget1 hsame
    unfold CheckSubTasksState
    by_cases hN : cs.ExecutionArraySize < 0
    · simp [hN]
    · simp only [hN, if_false, hget, hget1]
      rw [loop_congr job job1 cs _ 0 _ (fun j x hj e0 h0 ht => by
        by_cases hji : j = i
        · subst hji
          rw [hitem] at hj
          injection hj with hj
          subst hj
          obtain ⟨he0, _⟩ := Phases_getElem_some _ e0 h0
          rw [he0, hterm] at ht
          cases ht
        · simpa using hsame j hji)]

theorem isAPhase_iff (e : Int) : Phase.IsAPhase e = true ↔ 0 ≤ e ∧ e ≤ 8 := by
  unfold Phase.IsAPhase _PhaseValues
  simp only [List.any_cons, List.any_nil, Bool.or_false, Bool.or_eq_true, beq_iff_eq]
  change (e = 0 ∨ e = 1 ∨ e = 2 ∨ e = 3 ∨ e = 4 ∨ e = 5 ∨ e = 6 ∨ e = 7 ∨ e = 8) ↔ _
  omega

theorem Summary_nil (m : Int) : ErrorMessageCollector.Summary [] m = "" := by
  unfold ErrorMessageCollector.Summary
  by_cases h : (0 : Int) ≤ m
  · simp [String.intercalate, h]
  · have : m.toNat = 0 := by omega
    simp [String.intercalate, h, this]

theorem finish_threshold (cfg : Config) (cs : State) (st : LoopState) :
    CheckSubTasksState.threshold (CheckSubTasksState.finish cfg cs st)
      = CheckSubTasksState.threshold cs := by
  unfold CheckSubTasksState.finish CheckSubTasksState.threshold
  simp only [State.SetPhase, State.SetReason, State.SetArrayStatus]
  split <;> split <;> rfl

theorem finish_size (cfg : Config) (cs : State) (st : LoopState) :
    (CheckSubTasksState.finish cfg cs st).ExecutionArraySize = cs.ExecutionArraySize := by
  unfold CheckSubTasksState.finish
  simp only [State.SetPhase, State.SetReason, State.SetArrayStatus]
  split <;> split <;> rfl

theorem finish_finish (cfg : Config) (cs : State) (st : LoopState) (msg2 : ErrorMessageCollector) :
    CheckSubTasksState.finish cfg (CheckSubTasksState.finish cfg cs st)
        (LoopState.mk [] msg2 st.newArrayStatus)
      = { CheckSubTasksState.finish cfg cs st with
          Reason :=
            if (CheckSubTasksState.finish cfg cs st).CurrentPhase
                  = arrayCore.Phase.PhasePermanentFailure
                ∨ (CheckSubTasksState.finish cfg cs st).CurrentPhase
                  = arrayCore.Phase.PhaseRetryableFailure then
              ErrorMessageCollector.Summary msg2 cfg.MaxErrorStringLength
            else (CheckSubTasksState.finish cfg cs st).Reason } := by
  unfold CheckSubTasksState.finish CheckSubTasksState.threshold
  simp only [State.SetPhase, State.SetReason, State.SetArrayStatus]
  generalize hP : arrayCore.SummaryToPhase
    (toInt64 (toInt64 (cs.OriginalMinSuccesses - cs.OriginalArraySize)
      - toInt64 cs.ExecutionArraySize)) st.newArrayStatus.Summary = P
  cases P <;> simp [hP]

theorem toUint64_phase (p : Int) (h0 : 0 ≤ p) (h8 : p ≤ 8) :
    ∃ n : Nat, n < 9 ∧ toUint64 p = n ∧ (n : Int) = p := by
  refine ⟨p.toNat, by omega, ?_, by omega⟩
  unfold toUint64
  norm_num
  congr 1
  omega

theorem rerun_of_phase (job : Job) (k : Nat) (sj : SubJob) (p : Int) (h0 : 0 ≤ p) (h8 : p ≤ 8)
    (hread : Phase.IsTerminal p = false → job.SubJobs[k]? = some (some sj) ∧ sj.Status.Phase = p) :
    recordedPhase job k (toUint64 p) = Except.ok p ∧ collectedFor job k (toUint64 p) = [] ∧
      toUint64 p % 2 ^ 4 = toUint64 p := by
  obtain ⟨n, hn, hu, hc⟩ := toUint64_phase p h0 h8
  rw [hu]
  have hI := Phases_getElem_of_lt n hn
  rw [hc] at hI
  unfold recordedPhase collectedFor
  simp only [goIndex_natCast, bind, Except.bind, pure, Except.pure, List.get?_eq_getElem?, hI]
  refine ⟨?_, ?_, by omega⟩
  · cases ht : Phase.IsTerminal p with
    | true => simp
    | false =>
      obtain ⟨hs, hp⟩ := hread ht
      simp [hs, goDeref, hp]
  · cases ht : Phase.IsTerminal p with
    | true => simp
    | false =>
      obtain ⟨hs, hp⟩ := hread ht
      have hf : Phase.IsFailure p = false := by
        unfold Phase.IsTerminal at ht
        unfold Phase.IsFailure
        simp only [Bool.or_eq_false_iff] at ht ⊢
        exact ⟨ht.1.2, ht.2⟩
      simp [hs, hp, hf]

theorem rerun_child (job : Job) (hvalid : job.PhasesValid) (k : Nat) (item : Item) (e : Phase)
    (he : recordedPhase job k item = Except.ok e) :
    recordedPhase job k (toUint64 e) = Except.ok e ∧ collectedFor job k (toUint64 e) = [] ∧
      toUint64 e % 2 ^ 4 = toUint64 e := by
  unfold recordedPhase at he
  simp only [goIndex_natCast, bind, Except.bind, pure, Except.pure, List.get?_eq_getElem?] at he
  cases h0 : core.Phases[item]? with
  | none => simp [h0] at he
  | some e0 =>
    simp only [h0] at he
    obtain ⟨he0, h9⟩ := Phases_getElem_some item e0 h0
    have he0i : @Eq Int e0 ((item : Nat) : Int) := he0
    have h9n : (item : Nat) < 9 := h9
    cases ht : Phase.IsTerminal e0 with
    | true =>
      simp only [ht, if_true] at he
      injection he with he
      subst he
      exact rerun_of_phase job k (SubJob.mk "" [] (JobStatus.mk 0 "")) e0 (by omega) (by omega)
        (fun hc => by rw [ht] at hc; cases hc)
    | false =>
      simp only [ht] at he
      cases hs : job.SubJobs[k]? with
      | none => simp [hs] at he
      | some ptr =>
        cases ptr with
        | none => simp [hs, goDeref] at he
        | some sj =>
          simp only [hs, goDeref] at he
          simp only [Bool.false_eq_true, if_false] at he
          injection he with he
          have hmem : some sj ∈ job.SubJobs := List.mem_iff_getElem?.2 ⟨k, hs⟩
          have hv := (isAPhase_iff _).1 (hvalid sj hmem)
          rw [he] at hv
          exact rerun_of_phase job k sj e hv.1 hv.2 (fun _ => ⟨hs, he⟩)

theorem rerun_all (job : Job) (hvalid : job.PhasesValid) :
    ∀ (items : List Item) (k : Nat) (es : List Phase), recordedPhases job items k = Except.ok es →
      recordedPhases job (es.map toUint64) k = Except.ok es ∧
      collectedAll job (es.map toUint64) k = [] ∧
      (es.map toUint64).map (fun v => v % 2 ^ 4) = es.map toUint64 := by
  intro items
  induction items with
  | nil =>
    intro k es hes
    simp only [recordedPhases] at hes
    injection hes with hes
    subst hes
    exact ⟨rfl, rfl, rfl⟩
  | cons x rest ih =>
    intro k es hes
    simp only [recordedPhases] at hes
    cases he : recordedPhase job k x with
    | error f => simp [he] at hes
    | ok e =>
      simp only [he] at hes
      cases hr : recordedPhases job rest (k + 1) with
      | error f => simp [hr] at hes
      | ok es1 =>
        simp only [hr] at hes
        injection hes with hes
        subst hes
        obtain ⟨h1, h2, h3⟩ := rerun_child job hvalid k x e he
        obtain ⟨i1, i2, i3⟩ := ih (k + 1) es1 hr
        refine ⟨?_, ?_, ?_⟩
        · simp only [List.map_cons, recordedPhases, h1, i1]
        · simp only [List.map_cons, collectedAll, h2, i2, List.append_nil]
        · simp only [List.map_cons, h3, i3]

theorem writeFrom_full (n : Nat) (vs : List Item) (hlen : vs.length = n)
    (hvs : vs.map (fun v => v % 2 ^ 4) = vs) :
    writeFrom (List.replicate n 0) 0 vs = vs := by
  unfold writeFrom
  rw [hvs]
  simp [hlen]

/-- C7, amended: reconciling twice against an unchanged job record. When the prior array
has N items and the sub-job slots hold phases, a second round on the state of the
first returns a state with the same phase, phase version and array status; its
error text is the same unless the aggregate phase is PermanentFailure or
RetryableFailure, in which case it is empty, the children already terminal not
being read again. -/
theorem CheckSubTasksState_idempotent_up_to_reason (tm : TaskExecutionMetadata) (js : JobStore)
    (cfg : Config) (cs : State) (job : Job) (hget : js.Get tm.GeneratedName = some job)
    (hsize : cs.ArrayHasSize) (hvalid : job.PhasesValid) (S1 : State)
    (h1 : (CheckSubTasksState tm js cfg cs).result = Except.ok S1) :
    ∃ S2, (CheckSubTasksState tm js cfg S1).result = Except.ok S2 ∧
      S2.CurrentPhase = S1.CurrentPhase ∧ S2.PhaseVersion = S1.PhaseVersion ∧
      S2.ArrayStatus = S1.ArrayStatus ∧
      S2.Reason =
        (if S1.CurrentPhase = arrayCore.Phase.PhasePermanentFailure
            ∨ S1.CurrentPhase = arrayCore.Phase.PhaseRetryableFailure then ""
          else S1.Reason) := by
  obtain ⟨hN, hlen0⟩ := hsize
  obtain ⟨_, es, hes, hlen, _, hS1⟩ := round_present tm js cfg cs job hget S1 h1
  obtain ⟨r1, r2, r3⟩ := rerun_all job hvalid _ 0 es hes
  have hfull : writeFrom (List.replicate cs.ExecutionArraySize.toNat 0) 0 (es.map toUint64)
      = es.map toUint64 :=
    writeFrom_full _ _ (by rw [List.length_map, hlen, hlen0]) r3
  rw [hfull] at hS1
  have hitems : S1.ArrayStatus.Detailed.GetItems = es.map toUint64 := by
    rw [hS1, finish_arrayStatus]
    rfl
  have hsz : S1.ExecutionArraySize = cs.ExecutionArraySize := by
    rw [hS1, finish_size]
  obtain ⟨S2, h2⟩ := round_total tm js cfg S1 job hget (by rw [hsz]; exact hN) es
    (by rw [hitems]; exact r1)
    (by rw [hitems, hsz, List.length_map, hlen, hlen0])
  obtain ⟨_, es2, hes2, _, _, hS2⟩ := round_present tm js cfg S1 job hget S2 h2
  rw [hitems, r1] at hes2
  injection hes2 with hes2
  subst hes2
  rw [hitems, r2, hsz, hfull] at hS2
  have hff := finish_finish cfg cs (LoopState.mk []
    (collectedAll job cs.ArrayStatus.Detailed.GetItems 0)
    (ArrayStatus.mk (es.foldl ArraySummary.Inc []) (CompactArray.mk (es.map toUint64)))) []
  rw [← hS1] at hff
  simp only [Summary_nil] at hff
  refine ⟨S2, h2, ?_⟩
  rw [hS2, hff]
  exact ⟨rfl, rfl, rfl, rfl⟩

/-! ### Lemmas on `phase_enumer.go` -/

theorem lookup_some_mem {α β : Type} [BEq α] [LawfulBEq α] (k : α) (v : β) :
    ∀ l : List (α × β), l.lookup k = some v → (k, v) ∈ l
  | [], h => by simp [List.lookup] at h
  | (a, b) :: l, h => by
      by_cases hk : k = a
      · subst hk
        simp [List.lookup] at h
        simp [h]
      · have hb : (k == a) = false := by simpa using hk
        simp only [List.lookup, hb] at h
        exact List.mem_cons_of_mem _ (lookup_some_mem k v l h)

theorem PhaseNameToValueMap_eq : _PhaseNameToValueMap =
    [("PhaseUndefined", 0), ("PhaseNotReady", 1), ("PhaseWaitingForResources", 2),
     ("PhaseQueued", 3), ("PhaseInitializing", 4), ("PhaseRunning", 5), ("PhaseSuccess", 6),
     ("PhaseRetryableFailure", 7), ("PhasePermanentFailure", 8)] := by rfl

theorem PhaseString_ok_iff (s : String) (p : Phase) :
    PhaseString s = Except.ok p ↔ (0 ≤ p ∧ p ≤ 8 ∧ Phase.String p = s) := by
  constructor
  · intro h
    unfold PhaseString at h
    cases hl : _PhaseNameToValueMap.lookup s with
    | none => simp [hl] at h
    | some v =>
      simp only [hl] at h
      cases h
      have hm := lookup_some_mem s p _ hl
      rw [PhaseNameToValueMap_eq] at hm
      simp only [List.mem_cons, Prod.mk.injEq, List.mem_singleton, List.mem_nil_iff, or_false] at hm
      rcases hm with ⟨rfl, rfl⟩ | ⟨rfl, rfl⟩ | ⟨rfl, rfl⟩ | ⟨rfl, rfl⟩ | ⟨rfl, rfl⟩ | ⟨rfl, rfl⟩ |
        ⟨rfl, rfl⟩ | ⟨rfl, rfl⟩ | ⟨rfl, rfl⟩ <;> exact ⟨by decide, by decide, by rfl⟩
  · rintro ⟨h0, h8, rfl⟩
    interval_cases p <;> rfl

theorem PhaseString_error_iff (s : String) :
    (∃ e, PhaseString s = Except.error e) ↔ ∀ p : Phase, 0 ≤ p → p ≤ 8 → Phase.String p ≠ s := by
  constructor
  · rintro ⟨e, he⟩ p h0 h8 hp
    have := (PhaseString_ok_iff s p).2 ⟨h0, h8, hp⟩
    rw [this] at he
    cases he
  · intro h
    cases hr : PhaseString s with
    | error e => exact ⟨e, rfl⟩
    | ok p =>
      obtain ⟨h0, h8, hp⟩ := (PhaseString_ok_iff s p).1 hr
      exact absurd hp (h p h0 h8)

/-! ### Claims on `phase_enumer.go` -/

/-- C1: for every phase code `p` in 0..8, `PhaseString (p.String)` succeeds and
returns exactly `p`. -/
theorem PhaseString_String_roundtrip (p : Phase) (h0 : 0 ≤ p) (h8 : p ≤ 8) :
    PhaseString (Phase.String p) = Except.ok p := by
  interval_cases p <;> rfl

theorem PhaseString_String_roundtrip_witness :
    (0 : Phase) ≤ 3 ∧ (3 : Phase) ≤ 8 ∧ PhaseString (Phase.String 3) = Except.ok 3 :=
  ⟨by decide, by decide, PhaseString_String_roundtrip 3 (by decide) (by decide)⟩

/-- C2: for every string `s`, `PhaseString s` returns an error if and only if `s` is
the name of none of the nine phases, and when it succeeds with `p` then
`p.String = s`. -/
theorem PhaseString_error_iff_not_a_name (s : String) :
    ((∃ e, PhaseString s = Except.error e) ↔
      ∀ p : Phase, 0 ≤ p → p ≤ 8 → Phase.String p ≠ s) ∧
    (∀ p : Phase, PhaseString s = Except.ok p → Phase.String p = s) := by
  refine ⟨PhaseString_error_iff s, ?_⟩
  intro p hp
  exact ((PhaseString_ok_iff s p).1 hp).2.2

/-- C3, as stated, fails: the name of code 0 is not `Undefined`, and `PhaseString`
rejects `Undefined`. -/
theorem Phase_String_zero_not_Undefined :
    Phase.String 0 ≠ "Undefined" ∧
    PhaseString "Undefined" = Except.error "Undefined does not belong to Phase values" :=
  ⟨by decide, rfl⟩

/-- C3, amended: the names of the codes 0..8 are, in order, `PhaseUndefined`,
`PhaseNotReady`, `PhaseWaitingForResources`, `PhaseQueued`, `PhaseInitializing`,
`PhaseRunning`, `PhaseSuccess`, `PhaseRetryableFailure`, `PhasePermanentFailure`,
and `PhaseString` accepts each of these nine strings, returning its code. -/
theorem Phase_String_table :
    _PhaseValues.map Phase.String =
      ["PhaseUndefined", "PhaseNotReady", "PhaseWaitingForResources", "PhaseQueued",
        "PhaseInitializing", "PhaseRunning", "PhaseSuccess", "PhaseRetryableFailure",
        "PhasePermanentFailure"] ∧
    ["PhaseUndefined", "PhaseNotReady", "PhaseWaitingForResources", "PhaseQueued",
        "PhaseInitializing", "PhaseRunning", "PhaseSuccess", "PhaseRetryableFailure",
        "PhasePermanentFailure"].map PhaseString =
      [Except.ok 0, Except.ok 1, Except.ok 2, Except.ok 3, Except.ok 4, Except.ok 5,
        Except.ok 6, Except.ok 7, Except.ok 8] :=
  ⟨rfl, rfl⟩

/-! ### Claims on the threshold of `CheckSubTasksState` -/

/-- C4 at N = 10, originalArraySize = 10, minSuccesses = 8: the threshold that
`CheckSubTasksState` passes to `SummaryToPhase` is -12, while
`minSuccesses - (originalArraySize - N)` is 8; the phase of the round is
`SummaryToPhase` of -12. -/
theorem CheckSubTasksState_threshold_at_example :
    CheckSubTasksState.threshold (exampleState 10 8 10) = -12 ∧
    (exampleState 10 8 10).needed = 8 ∧
    ∀ (cfg : Config) (st : LoopState),
      (CheckSubTasksState.finish cfg (exampleState 10 8 10) st).CurrentPhase
        = arrayCore.SummaryToPhase (-12) st.newArrayStatus.Summary :=
  ⟨rfl, rfl, fun cfg st => finish_phase cfg (exampleState 10 8 10) st⟩

/-- C5 at its example: with N = 10, originalArraySize = 10, minSuccesses = 8, 3 children
PermanentFailure and 7 Running, the round returns the aggregate phase Success with
the summary 3 PermanentFailure, 7 Running, although
`N - terminalFailures = 7 < needed = 8`. -/
theorem CheckSubTasksState_fail_fast_example :
    (CheckSubTasksState exampleMeta (exampleStore failFastJob) (Config.mk 100)
        (exampleState 10 8 10)).result.map (fun s => (s.CurrentPhase, s.ArrayStatus.Summary))
      = Except.ok (arrayCore.Phase.PhaseSuccess, [(8, 3), (5, 7)]) ∧
    (exampleState 10 8 10).needed = 8 :=
  ⟨rfl, rfl⟩

/-! ### Witnesses and counterexample for the rounds -/

theorem CheckSubTasksState_restart_recovery_witness :
    emptyStore.Get exampleMeta.GeneratedName = none ∧
    (exampleState 2 2 2).ExternalJobID = some "job-1" ∧
    0 ≤ (exampleState 2 2 2).ExecutionArraySize ∧
    ∃ record : Job, record.ID = "job-1" ∧ record.OwnerReference = exampleMeta.OwnerID ∧
      (record.SubJobs.length : Int) = (exampleState 2 2 2).ExecutionArraySize ∧
      (∀ slot ∈ record.SubJobs, slot = none) ∧
      (CheckSubTasksState exampleMeta emptyStore (Config.mk 100) (exampleState 2 2 2)).calls
        = [StoreCall.GetOrCreate exampleMeta.GeneratedName record] ∧
      (∀ j, emptyStore.GetOrCreate exampleMeta.GeneratedName record = Except.ok j →
        (CheckSubTasksState exampleMeta emptyStore (Config.mk 100) (exampleState 2 2 2)).result
          = Except.ok (exampleState 2 2 2)) ∧
      (∀ e, emptyStore.GetOrCreate exampleMeta.GeneratedName record = Except.error e →
        (CheckSubTasksState exampleMeta emptyStore (Config.mk 100) (exampleState 2 2 2)).result
          = Except.error (Fault.err e)) :=
  ⟨rfl, rfl, by decide,
    CheckSubTasksState_restart_recovery exampleMeta emptyStore (Config.mk 100) (exampleState 2 2 2)
      "job-1" rfl rfl (by decide)⟩

theorem CheckSubTasksState_terminal_carried_forward_witness :
    (exampleStore carriedJob).Get exampleMeta.GeneratedName = some carriedJob ∧
    carriedState.ArrayStatus.Detailed.GetItems[0]? = some 6 ∧
    Phase.IsTerminal ((6 : Nat) : Int) = true ∧
    (CheckSubTasksState exampleMeta (exampleStore carriedJob) (Config.mk 100) carriedState).result.map
        (fun s => s.ArrayStatus.Detailed.GetItems) = Except.ok [6, 5] ∧
    (∀ S1, (CheckSubTasksState exampleMeta (exampleStore carriedJob) (Config.mk 100)
        carriedState).result = Except.ok S1 → S1.ArrayStatus.Detailed.GetItems[0]? = some 6) :=
  ⟨rfl, rfl, rfl, rfl,
    (CheckSubTasksState_terminal_carried_forward exampleMeta (exampleStore carriedJob)
      (Config.mk 100) carriedState carriedJob rfl 0 6 rfl rfl).2.1⟩

/-- C7, as stated, fails: with one child in PermanentFailure carrying the message
`boom`, the first round returns the error text `0: boom`, and a second round on
that state against the same job record returns the empty error text. -/
theorem CheckSubTasksState_reason_not_idempotent :
    (CheckSubTasksState exampleMeta (exampleStore singleFailureJob) (Config.mk 100)
        (exampleState 1 3 1)).result = Except.ok (failedState "0: boom") ∧
    (CheckSubTasksState exampleMeta (exampleStore singleFailureJob) (Config.mk 100)
        (failedState "0: boom")).result = Except.ok (failedState "") ∧
    (failedState "").Reason ≠ (failedState "0: boom").Reason :=
  ⟨rfl, rfl, by decide⟩

theorem singleFailureJob_valid : singleFailureJob.PhasesValid := by
  intro sj h
  simp only [singleFailureJob, exampleSlot, List.mem_singleton, Option.some.injEq] at h
  subst h
  rfl

theorem CheckSubTasksState_idempotent_up_to_reason_witness :
    (exampleStore singleFailureJob).Get exampleMeta.GeneratedName = some singleFailureJob ∧
    (exampleState 1 3 1).ArrayHasSize ∧ singleFailureJob.PhasesValid ∧
    (CheckSubTasksState exampleMeta (exampleStore singleFailureJob) (Config.mk 100)
        (exampleState 1 3 1)).result = Except.ok (failedState "0: boom") ∧
    ∃ S2, (CheckSubTasksState exampleMeta (exampleStore singleFailureJob) (Config.mk 100)
        (failedState "0: boom")).result = Except.ok S2 ∧
      S2.CurrentPhase = (failedState "0: boom").CurrentPhase ∧
      S2.PhaseVersion = (failedState "0: boom").PhaseVersion ∧
      S2.ArrayStatus = (failedState "0: boom").ArrayStatus ∧
      S2.Reason =
        (if (failedState "0: boom").CurrentPhase = arrayCore.Phase.PhasePermanentFailure
            ∨ (failedState "0: boom").CurrentPhase = arrayCore.Phase.PhaseRetryableFailure then ""
          else (failedState "0: boom").Reason) :=
  ⟨rfl, ⟨by decide, rfl⟩, singleFailureJob_valid, rfl,
    CheckSubTasksState_idempotent_up_to_reason exampleMeta (exampleStore singleFailureJob)
      (Config.mk 100) (exampleState 1 3 1) singleFailureJob rfl ⟨by decide, rfl⟩
      singleFailureJob_valid (failedState "0: boom") rfl⟩

/-! ### `calculateOriginalIndex` -/

theorem BitSet.unsetBelow_succ (s : BitSet) (p : Nat) :
    s.unsetBelow (p + 1) = s.unsetBelow p + (if s.IsSet p then 0 else 1) := by
  unfold BitSet.unsetBelow
  rw [List.range_succ, List.filter_append, List.length_append]
  cases h : s.IsSet p <;> simp [List.filter, h]

theorem calculateOriginalIndex.loop_spec (c : Int) (s : BitSet) :
    ∀ (fuel i : Nat) (sum : Int), i + fuel = s.Cap → sum = (s.unsetBelow i : Int) → sum ≤ c →
      c < (s.unsetBelow s.Cap : Int) →
      ∃ p : Nat, calculateOriginalIndex.loop c s fuel i sum = (p : Int) ∧ p < s.Cap ∧
        s.IsSet p = false ∧ (s.unsetBelow p : Int) = c := by
  intro fuel
  induction fuel with
  | zero =>
    intro i sum hi hs hle hlt
    simp at hi
    subst hi
    omega
  | succ fuel ih =>
    intro i sum hi hs hle hlt
    have hsucc := BitSet.unsetBelow_succ s i
    unfold calculateOriginalIndex.loop
    cases hb : s.IsSet i with
    | true =>
      simp only [hb, if_true] at hsucc
      simp only [Bool.not_true, Bool.false_eq_true, if_false]
      exact ih (i + 1) sum (by omega) (by rw [hsucc]; simpa using hs) hle hlt
    | false =>
      simp only [hb, Bool.false_eq_true, if_false] at hsucc
      simp only [Bool.not_false, if_true]
      by_cases hc : sum = c
      · rw [if_pos hc]
        exact ⟨i, rfl, by omega, hb, by omega⟩
      · rw [if_neg hc]
        exact ih (i + 1) (sum + 1) (by omega) (by rw [hsucc]; push_cast; omega) (by omega) hlt

/-- C10: inverse-rank translation. For every bitset and every compacted index `c` with
`0 ≤ c < number of unset bits`, `calculateOriginalIndex c` is a position `p` within
the bitset whose bit is unset and that has exactly `c` unset bits before it; for
the bitset of length 5 with the bits 1 and 3 set it maps 0 to 0, 1 to 2, 2 to 4. -/
theorem calculateOriginalIndex_inverse_rank (toCache : BitSet) (c : Int) (h0 : 0 ≤ c)
    (hc : c < (toCache.unsetBelow toCache.Cap : Int)) :
    (∃ p : Nat, calculateOriginalIndex c toCache = (p : Int) ∧ p < toCache.Cap ∧
      toCache.IsSet p = false ∧ (toCache.unsetBelow p : Int) = c) ∧
    (calculateOriginalIndex 0 exampleIndexSet = 0 ∧ calculateOriginalIndex 1 exampleIndexSet = 2
      ∧ calculateOriginalIndex 2 exampleIndexSet = 4) := by
  refine ⟨?_, by decide⟩
  unfold calculateOriginalIndex
  exact calculateOriginalIndex.loop_spec c toCache toCache.Cap 0 0 (by simp)
    (by simp [BitSet.unsetBelow]) h0 hc

theorem calculateOriginalIndex_inverse_rank_witness :
    (0 : Int) ≤ 1 ∧ (1 : Int) < (exampleIndexSet.unsetBelow exampleIndexSet.Cap : Int) ∧
    (∃ p : Nat, calculateOriginalIndex 1 exampleIndexSet = (p : Int) ∧ p < exampleIndexSet.Cap ∧
      exampleIndexSet.IsSet p = false ∧ (exampleIndexSet.unsetBelow p : Int) = 1) :=
  ⟨by decide, by decide,
    (calculateOriginalIndex_inverse_rank exampleIndexSet 1 (by decide) (by decide)).1⟩

/-! ### Phase version -/

theorem newPhaseVersion_foldl (l : List (Int × Int)) :
    ∀ v : Nat, v < 2 ^ 32 →
      l.foldl (fun v e => (v + (toUint32 e.1 * toUint32 e.2) % 2 ^ 32) % 2 ^ 32) v
      = (v + (l.map (fun e => toUint32 e.1 * toUint32 e.2)).sum) % 2 ^ 32 := by
  induction l with
  | nil =>
    intro v hv
    simp only [List.foldl_nil, List.map_nil, List.sum_nil, Nat.add_zero]
    exact (Nat.mod_eq_of_lt hv).symm
  | cons e rest ih =>
    intro v hv
    simp only [List.foldl_cons, List.map_cons, List.sum_cons]
    rw [ih _ (Nat.mod_lt _ (by norm_num))]
    generalize toUint32 e.1 * toUint32 e.2 = a
    generalize (List.map (fun e => toUint32 e.1 * toUint32 e.2) rest).sum = b
    norm_num
    omega

theorem toUint32_mul_modEq (p c : Int) :
    ((toUint32 p * toUint32 c : Nat) : Int) ≡ p * c [ZMOD 2 ^ 32] := by
  unfold toUint32
  have hp : (((p % 2 ^ 32).toNat : Nat) : Int) = p % 2 ^ 32 :=
    Int.toNat_of_nonneg (Int.emod_nonneg _ (by norm_num))
  have hc : (((c % 2 ^ 32).toNat : Nat) : Int) = c % 2 ^ 32 :=
    Int.toNat_of_nonneg (Int.emod_nonneg _ (by norm_num))
  rw [Nat.cast_mul, hp, hc]
  exact Int.ModEq.mul (Int.mod_modEq p _) (Int.mod_modEq c _)

theorem sum_toUint32_modEq (l : List (Int × Int)) :
    (((l.map (fun e => toUint32 e.1 * toUint32 e.2)).sum : Nat) : Int)
      ≡ (l.map (fun e => e.1 * e.2)).sum [ZMOD 2 ^ 32] := by
  induction l with
  | nil => simp [Int.ModEq]
  | cons e rest ih =>
    simp only [List.map_cons, List.sum_cons, Nat.cast_add]
    exact Int.ModEq.add (toUint32_mul_modEq e.1 e.2) ih

theorem newPhaseVersion_eq (summary : ArraySummary) :
    (CheckSubTasksState.newPhaseVersion summary : Int)
      = (summary.map (fun e => e.1 * e.2)).sum % 2 ^ 32 := by
  unfold CheckSubTasksState.newPhaseVersion
  rw [newPhaseVersion_foldl _ 0 (by norm_num)]
  simp only [Nat.zero_add]
  have h := sum_toUint32_modEq summary
  unfold Int.ModEq at h
  rw [← h]
  push_cast
  rfl

theorem newPhaseVersion_perm (l s : ArraySummary) (h : l.Perm s) :
    CheckSubTasksState.newPhaseVersion l = CheckSubTasksState.newPhaseVersion s := by
  have h1 := newPhaseVersion_eq l
  have h2 := newPhaseVersion_eq s
  have h3 : (l.map (fun e => e.1 * e.2)).sum = (s.map (fun e => e.1 * e.2)).sum :=
    List.Perm.sum_eq (List.Perm.map _ h)
  rw [h3, ← h2] at h1
  exact_mod_cast h1

theorem finish_version (cfg : Config) (cs : State) (st : LoopState) :
    (CheckSubTasksState.finish cfg cs st).PhaseVersion
      = (if (CheckSubTasksState.finish cfg cs st).CurrentPhase
            = arrayCore.Phase.PhaseCheckingSubTaskExecutions then
          CheckSubTasksState.newPhaseVersion st.newArrayStatus.Summary
        else core.DefaultPhaseVersion) := by
  rw [finish_phase]
  unfold CheckSubTasksState.finish
  simp only [State.SetPhase, State.SetReason, State.SetArrayStatus]
  generalize arrayCore.SummaryToPhase (CheckSubTasksState.threshold cs)
    st.newArrayStatus.Summary = P
  cases P <;> simp

theorem finish_reason (cfg : Config) (cs : State) (st : LoopState) :
    (CheckSubTasksState.finish cfg cs st).Reason
      = (if (CheckSubTasksState.finish cfg cs st).CurrentPhase
              = arrayCore.Phase.PhasePermanentFailure
            ∨ (CheckSubTasksState.finish cfg cs st).CurrentPhase
              = arrayCore.Phase.PhaseRetryableFailure then
          ErrorMessageCollector.Summary st.msg cfg.MaxErrorStringLength
        else cs.Reason) := by
  rw [finish_phase]
  unfold CheckSubTasksState.finish
  simp only [State.SetPhase, State.SetReason, State.SetArrayStatus]
  generalize arrayCore.SummaryToPhase (CheckSubTasksState.threshold cs)
    st.newArrayStatus.Summary = P
  cases P <;> simp

/-- C11: phase version. In a round where the job record is present, a well-formed round
returns a state; when the returned aggregate phase is the still-checking phase, the
new phase version is the sum of `code * count` over the entries of the new summary
taken modulo `2 ^ 32`, and it is the same for every order of the entries; for
every other aggregate phase the new version is the default version 0. -/
theorem CheckSubTasksState_phase_version (tm : TaskExecutionMetadata) (js : JobStore)
    (cfg : Config) (cs : State) (job : Job) (hget : js.Get tm.GeneratedName = some job) :
    (RoundWellFormed cs job → ∃ S1, (CheckSubTasksState tm js cfg cs).result = Except.ok S1) ∧
    (∀ S1, (CheckSubTasksState tm js cfg cs).result = Except.ok S1 →
      (S1.CurrentPhase = arrayCore.Phase.PhaseCheckingSubTaskExecutions →
        (S1.PhaseVersion : Int)
            = (S1.ArrayStatus.Summary.map (fun e => e.1 * e.2)).sum % 2 ^ 32 ∧
        ∀ visited : ArraySummary, visited.Perm S1.ArrayStatus.Summary →
          CheckSubTasksState.newPhaseVersion visited = S1.PhaseVersion) ∧
      (S1.CurrentPhase ≠ arrayCore.Phase.PhaseCheckingSubTaskExecutions →
        S1.PhaseVersion = 0)) := by
  refine ⟨round_total_of_wellFormed tm js cfg cs job hget, ?_⟩
  intro S1 hres
  obtain ⟨_, es, _, _, _, hS1⟩ := round_present tm js cfg cs job hget S1 hres
  have hv := finish_version cfg cs (LoopState.mk []
    (collectedAll job cs.ArrayStatus.Detailed.GetItems 0)
    (ArrayStatus.mk (es.foldl ArraySummary.Inc [])
      (CompactArray.mk (writeFrom (List.replicate cs.ExecutionArraySize.toNat 0) 0
        (es.map toUint64)))))
  have ha := finish_arrayStatus cfg cs (LoopState.mk []
    (collectedAll job cs.ArrayStatus.Detailed.GetItems 0)
    (ArrayStatus.mk (es.foldl ArraySummary.Inc [])
      (CompactArray.mk (writeFrom (List.replicate cs.ExecutionArraySize.toNat 0) 0
        (es.map toUint64)))))
  rw [← hS1] at hv ha
  simp only at hv
  constructor
  · intro hph
    rw [if_pos hph] at hv
    rw [ha, hv]
    exact ⟨newPhaseVersion_eq _, fun visited hp => newPhaseVersion_perm _ _ hp⟩
  · intro hph
    rw [if_neg hph] at hv
    rw [hv]
    rfl

theorem CheckSubTasksState_phase_version_witness :
    (exampleStore checkingJob).Get exampleMeta.GeneratedName = some checkingJob ∧
    (CheckSubTasksState exampleMeta (exampleStore checkingJob) (Config.mk 100)
        (exampleState 2 5 1)).result.map
        (fun s => (s.CurrentPhase, s.PhaseVersion, s.ArrayStatus.Summary))
      = Except.ok (arrayCore.Phase.PhaseCheckingSubTaskExecutions, 10, [(5, 2)]) ∧
    (∀ S1, (CheckSubTasksState exampleMeta (exampleStore checkingJob) (Config.mk 100)
        (exampleState 2 5 1)).result = Except.ok S1 →
      (S1.CurrentPhase = arrayCore.Phase.PhaseCheckingSubTaskExecutions →
        (S1.PhaseVersion : Int)
            = (S1.ArrayStatus.Summary.map (fun e => e.1 * e.2)).sum % 2 ^ 32 ∧
        ∀ visited : ArraySummary, visited.Perm S1.ArrayStatus.Summary →
          CheckSubTasksState.newPhaseVersion visited = S1.PhaseVersion) ∧
      (S1.CurrentPhase ≠ arrayCore.Phase.PhaseCheckingSubTaskExecutions →
        S1.PhaseVersion = 0)) :=
  ⟨rfl, rfl,
    (CheckSubTasksState_phase_version exampleMeta (exampleStore checkingJob) (Config.mk 100)
      (exampleState 2 5 1) checkingJob rfl).2⟩

/-! ### Failure reason -/

theorem collectedFor_eq_pair (job : Job) (k : Nat) (item : Nat) (h9 : item < 9) :
    collectedFor job k item = (collectedPair job k item).toList := by
  unfold collectedFor collectedPair
  simp only [goIndex_natCast, Phases_getElem_of_lt item h9, List.get?_eq_getElem?]
  cases ht : Phase.IsTerminal (item : Int) with
  | true =>
    simp only [if_true]
    cases job.SubJobs[k]? with
    | none => rfl
    | some ptr =>
      cases ptr with
      | none => rfl
      | some sj => simp
  | false =>
    simp only [Bool.false_eq_true, if_false]
    cases job.SubJobs[k]? with
    | none => rfl
    | some ptr =>
      cases ptr with
      | none => rfl
      | some sj =>
        by_cases hc : Phase.IsFailure sj.Status.Phase = true ∧ sj.Status.Message.length > 0
        · simp [hc]
        · have hc2 : ¬ (Phase.IsFailure sj.Status.Phase = true ∧ 0 < sj.Status.Message.length) := hc
          simp only [if_neg hc, true_and, if_neg hc2]
          rfl

theorem collectedAll_eq_pairs (job : Job) :
    ∀ (items : List Item) (k : Nat), (∀ item ∈ items, item < 9) →
      collectedAll job items k
        = (items.enumFrom k).filterMap (fun e => collectedPair job e.1 e.2) := by
  intro items
  induction items with
  | nil => intro k _; rfl
  | cons x rest ih =>
    intro k h9
    simp only [collectedAll, List.enumFrom_cons, List.filterMap_cons]
    rw [ih (k + 1) (fun y hy => h9 y (by simp [hy])), collectedFor_eq_pair job k x (h9 x (by simp))]
    cases collectedPair job k x <;> simp

theorem recordedPhases_items_lt (job : Job) :
    ∀ (items : List Item) (k : Nat) (es : List Phase), recordedPhases job items k = Except.ok es →
      ∀ item ∈ items, item < 9 := by
  intro items
  induction items with
  | nil => intro k es _ item hi; simp at hi
  | cons x rest ih =>
    intro k es hes item hi
    simp only [recordedPhases] at hes
    cases he : recordedPhase job k x with
    | error f => simp [he] at hes
    | ok e =>
      simp only [he] at hes
      cases hr : recordedPhases job rest (k + 1) with
      | error f => simp [hr] at hes
      | ok es1 =>
        rcases List.mem_cons.1 hi with h | h
        · subst h
          unfold recordedPhase at he
          simp only [goIndex_natCast, bind, Except.bind] at he
          cases h0 : core.Phases[item]? with
          | none => simp [h0] at he
          | some e0 => exact (Phases_getElem_some item e0 h0).2
        · exact ih (k + 1) es1 hr item h

/-- C12: failure reason. In a round where the job record is present, a well-formed round
returns a state; when the returned aggregate phase is PermanentFailure or
RetryableFailure, the reason of the new state is the collector summary, bounded by
`MaxErrorStringLength`, of the pairs `(child, message)` taken in increasing child
order over the children that are not terminal in the prior array and whose sub-job
phase is a failure with a non-empty message; for every other aggregate phase the
reason is that of the prior state. -/
theorem CheckSubTasksState_failure_reason (tm : TaskExecutionMetadata) (js : JobStore)
    (cfg : Config) (cs : State) (job : Job) (hget : js.Get tm.GeneratedName = some job) :
    (RoundWellFormed cs job → ∃ S1, (CheckSubTasksState tm js cfg cs).result = Except.ok S1) ∧
    (∀ S1, (CheckSubTasksState tm js cfg cs).result = Except.ok S1 →
      ((S1.CurrentPhase = arrayCore.Phase.PhasePermanentFailure
          ∨ S1.CurrentPhase = arrayCore.Phase.PhaseRetryableFailure) →
        S1.Reason = ErrorMessageCollector.Summary (collectedThisRound cs job)
          cfg.MaxErrorStringLength) ∧
      (¬ (S1.CurrentPhase = arrayCore.Phase.PhasePermanentFailure
          ∨ S1.CurrentPhase = arrayCore.Phase.PhaseRetryableFailure) →
        S1.Reason = cs.Reason)) := by
  refine ⟨round_total_of_wellFormed tm js cfg cs job hget, ?_⟩
  intro S1 hres
  obtain ⟨_, es, hes, _, _, hS1⟩ := round_present tm js cfg cs job hget S1 hres
  have hr := finish_reason cfg cs (LoopState.mk []
    (collectedAll job cs.ArrayStatus.Detailed.GetItems 0)
    (ArrayStatus.mk (es.foldl ArraySummary.Inc [])
      (CompactArray.mk (writeFrom (List.replicate cs.ExecutionArraySize.toNat 0) 0
        (es.map toUint64)))))
  rw [← hS1] at hr
  simp only at hr
  rw [collectedAll_eq_pairs job _ 0 (recordedPhases_items_lt job _ 0 es hes)] at hr
  constructor
  · intro hph
    rw [if_pos hph] at hr
    exact hr
  · intro hph
    rw [if_neg hph] at hr
    exact hr

theorem CheckSubTasksState_failure_reason_witness :
    (exampleStore singleFailureJob).Get exampleMeta.GeneratedName = some singleFailureJob ∧
    collectedThisRound (exampleState 1 3 1) singleFailureJob = [(0, "boom")] ∧
    (CheckSubTasksState exampleMeta (exampleStore singleFailureJob) (Config.mk 100)
        (exampleState 1 3 1)).result.map (fun s => (s.CurrentPhase, s.Reason))
      = Except.ok (arrayCore.Phase.PhasePermanentFailure, "0: boom") ∧
    (∀ S1, (CheckSubTasksState exampleMeta (exampleStore singleFailureJob) (Config.mk 100)
        (exampleState 1 3 1)).result = Except.ok S1 →
      ((S1.CurrentPhase = arrayCore.Phase.PhasePermanentFailure
          ∨ S1.CurrentPhase = arrayCore.Phase.PhaseRetryableFailure) →
        S1.Reason = ErrorMessageCollector.Summary
          (collectedThisRound (exampleState 1 3 1) singleFailureJob)
          (Config.mk 100).MaxErrorStringLength) ∧
      (¬ (S1.CurrentPhase = arrayCore.Phase.PhasePermanentFailure
          ∨ S1.CurrentPhase = arrayCore.Phase.PhaseRetryableFailure) →
        S1.Reason = (exampleState 1 3 1).Reason)) :=
  ⟨rfl, rfl, rfl,
    (CheckSubTasksState_failure_reason exampleMeta (exampleStore singleFailureJob) (Config.mk 100)
      (exampleState 1 3 1) singleFailureJob rfl).2⟩

/-! ### Summary and array of a round -/

theorem count_Inc (s : List (Int × Int)) (q p : Int) :
    ArraySummary.count (ArraySummary.Inc s q) p
      = ArraySummary.count s p + (if q = p then 1 else 0) := by
  induction s with
  | nil =>
    unfold ArraySummary.Inc ArraySummary.count
    by_cases h : q = p
    · subst h
      simp [List.lookup]
    · have h2 : (p == q) = false := by simpa using (fun hh : p = q => h hh.symm)
      simp [List.lookup, h, h2]
  | cons x rest ih =>
    obtain ⟨r, c⟩ := x
    unfold ArraySummary.Inc
    by_cases hrq : r = q
    · subst hrq
      simp only [if_true]
      unfold ArraySummary.count
      by_cases h : p = r
      · subst h
        simp [List.lookup]
      · have h2 : (p == r) = false := by simpa using h
        have h3 : ¬ r = p := fun hh => h hh.symm
        simp [List.lookup, h2, h3]
    · simp only [if_neg hrq]
      by_cases h : p = r
      · subst h
        have h3 : ¬ q = p := fun hh => hrq hh.symm
        unfold ArraySummary.count
        simp [List.lookup, h3]
      · have h2 : (p == r) = false := by simpa using h
        have e1 : ArraySummary.count ((r, c) :: ArraySummary.Inc rest q) p
            = ArraySummary.count (ArraySummary.Inc rest q) p := by
          unfold ArraySummary.count
          simp [List.lookup, h2]
        have e2 : ArraySummary.count ((r, c) :: rest) p = ArraySummary.count rest p := by
          unfold ArraySummary.count
          simp [List.lookup, h2]
        rw [e1, e2, ih]

theorem count_foldl_Inc (es : List Int) :
    ∀ (s : List (Int × Int)) (p : Int),
      ArraySummary.count (es.foldl ArraySummary.Inc s) p
        = ArraySummary.count s p + (es.count p : Int) := by
  induction es with
  | nil => intro s p; simp
  | cons e rest ih =>
    intro s p
    simp only [List.foldl_cons]
    rw [ih, count_Inc, List.count_cons]
    by_cases h : e = p
    · subst h
      simp
      omega
    · simp [h]

theorem total_Inc (s : List (Int × Int)) (q : Int) :
    ArraySummary.total (ArraySummary.Inc s q) = ArraySummary.total s + 1 := by
  induction s with
  | nil => simp [ArraySummary.Inc, ArraySummary.total]
  | cons x rest ih =>
    obtain ⟨r, c⟩ := x
    unfold ArraySummary.Inc
    by_cases hrq : r = q
    · simp only [if_pos hrq]
      simp [ArraySummary.total]
      omega
    · simp only [if_neg hrq]
      have e1 : ArraySummary.total ((r, c) :: ArraySummary.Inc rest q)
          = c + ArraySummary.total (ArraySummary.Inc rest q) := by
        simp [ArraySummary.total]
      have e2 : ArraySummary.total ((r, c) :: rest) = c + ArraySummary.total rest := by
        simp [ArraySummary.total]
      rw [e1, e2, ih]
      omega

theorem total_foldl_Inc (es : List Int) :
    ∀ (s : List (Int × Int)),
      ArraySummary.total (es.foldl ArraySummary.Inc s) = ArraySummary.total s + (es.length : Int) := by
  induction es with
  | nil => intro s; simp
  | cons e rest ih =>
    intro s
    simp only [List.foldl_cons, List.length_cons]
    rw [ih, total_Inc]
    push_cast
    omega

theorem recordedPhase_bounds (job : Job) (hvalid : job.PhasesValid) (k : Nat) (item : Nat)
    (e : Int) (he : recordedPhase job k item = Except.ok e) : 0 ≤ e ∧ e ≤ 8 := by
  unfold recordedPhase at he
  simp only [goIndex_natCast, bind, Except.bind, pure, Except.pure, List.get?_eq_getElem?] at he
  cases h0 : core.Phases[item]? with
  | none => simp [h0] at he
  | some e0 =>
    simp only [h0] at he
    obtain ⟨he0, h9⟩ := Phases_getElem_some item e0 h0
    have he0i : @Eq Int e0 ((item : Nat) : Int) := he0
    cases ht : Phase.IsTerminal e0 with
    | true =>
      simp only [ht, if_true] at he
      injection he with he
      have hei : @Eq Int e0 e := he
      omega
    | false =>
      simp only [ht] at he
      cases hs : job.SubJobs[k]? with
      | none => simp [hs] at he
      | some ptr =>
        cases ptr with
        | none => simp [hs, goDeref] at he
        | some sj =>
          simp only [hs, goDeref] at he
          simp only [Bool.false_eq_true, if_false] at he
          injection he with he
          have hmem : some sj ∈ job.SubJobs := List.mem_iff_getElem?.2 ⟨k, hs⟩
          have hv := (isAPhase_iff _).1 (hvalid sj hmem)
          rw [he] at hv
          exact hv

theorem recordedPhases_bounds (job : Job) (hvalid : job.PhasesValid) :
    ∀ (items : List Item) (k : Nat) (es : List Int), recordedPhases job items k = Except.ok es →
      ∀ e ∈ es, 0 ≤ e ∧ e ≤ 8 := by
  intro items
  induction items with
  | nil =>
    intro k es hes e he
    simp only [recordedPhases] at hes
    injection hes with hes
    subst hes
    simp at he
  | cons x rest ih =>
    intro k es hes e he
    simp only [recordedPhases] at hes
    cases hx : recordedPhase job k x with
    | error f => simp [hx] at hes
    | ok e1 =>
      simp only [hx] at hes
      cases hr : recordedPhases job rest (k + 1) with
      | error f => simp [hr] at hes
      | ok es1 =>
        simp only [hr] at hes
        injection hes with hes
        subst hes
        rcases List.mem_cons.1 he with h | h
        · subst h
          exact recordedPhase_bounds job hvalid k x e hx
        · exact ih (k + 1) es1 hr e h

theorem countP_map_toUint64 (p : Int) :
    ∀ es : List Int, (∀ e ∈ es, 0 ≤ e ∧ e ≤ 8) →
      List.countP (fun x : Nat => decide ((x : Int) = p)) (es.map toUint64) = es.count p := by
  intro es
  induction es with
  | nil => intro _; rfl
  | cons e rest ih =>
    intro h
    obtain ⟨n, _, hu, hc⟩ := toUint64_phase e (h e (by simp)).1 (h e (by simp)).2
    rw [List.map_cons, List.countP_cons, List.count_cons, ih (fun x hx => h x (by simp [hx])), hu, hc]
    by_cases hep : e = p
    · simp [hep]
    · simp [hep]

/-- C13: summary consistency. In a round where the job record is present, the prior array
has N items and the populated sub-job slots hold phases, a well-formed round returns a
state; in every returned state the count of each phase in the new summary is the
number of entries of the new array equal to it, the new array has N items and the
counts of the summary sum to N. -/
theorem CheckSubTasksState_summary_consistent (tm : TaskExecutionMetadata) (js : JobStore)
    (cfg : Config) (cs : State) (job : Job) (hget : js.Get tm.GeneratedName = some job)
    (hsize : cs.ArrayHasSize) (hvalid : job.PhasesValid) :
    (RoundWellFormed cs job → ∃ S1, (CheckSubTasksState tm js cfg cs).result = Except.ok S1) ∧
    (∀ S1, (CheckSubTasksState tm js cfg cs).result = Except.ok S1 →
      (∀ p : Phase, ArraySummary.count S1.ArrayStatus.Summary p
        = (List.countP (fun x : Item => decide ((x : Int) = p))
            S1.ArrayStatus.Detailed.GetItems : Int)) ∧
      (S1.ArrayStatus.Detailed.GetItems.length : Int) = cs.ExecutionArraySize ∧
      ArraySummary.total S1.ArrayStatus.Summary = cs.ExecutionArraySize) := by
  refine ⟨round_total_of_wellFormed tm js cfg cs job hget, ?_⟩
  intro S1 hres
  obtain ⟨hN, hlen0⟩ := hsize
  obtain ⟨_, es, hes, hlen, _, hS1⟩ := round_present tm js cfg cs job hget S1 hres
  obtain ⟨_, _, r3⟩ := rerun_all job hvalid _ 0 es hes
  have hfull : writeFrom (List.replicate cs.ExecutionArraySize.toNat 0) 0 (es.map toUint64)
      = es.map toUint64 :=
    writeFrom_full _ _ (by rw [List.length_map, hlen, hlen0]) r3
  rw [hfull] at hS1
  have hb := recordedPhases_bounds job hvalid _ 0 es hes
  have hst : S1.ArrayStatus = ArrayStatus.mk (es.foldl ArraySummary.Inc [])
      (CompactArray.mk (es.map toUint64)) := by
    rw [hS1, finish_arrayStatus]
  rw [hst]
  simp only [CompactArray.GetItems]
  refine ⟨?_, ?_, ?_⟩
  · intro p
    rw [count_foldl_Inc, countP_map_toUint64 p es hb]
    simp [ArraySummary.count]
  · rw [List.length_map, hlen, hlen0]
    exact Int.toNat_of_nonneg hN
  · rw [total_foldl_Inc, hlen, hlen0]
    simp only [ArraySummary.total, List.map_nil, List.sum_nil, zero_add]
    exact Int.toNat_of_nonneg hN

theorem CheckSubTasksState_summary_consistent_witness :
    (exampleStore singleFailureJob).Get exampleMeta.GeneratedName = some singleFailureJob ∧
    (exampleState 1 3 1).ArrayHasSize ∧ singleFailureJob.PhasesValid ∧
    (CheckSubTasksState exampleMeta (exampleStore singleFailureJob) (Config.mk 100)
        (exampleState 1 3 1)).result.map (fun s => s.ArrayStatus)
      = Except.ok (ArrayStatus.mk [(8, 1)] (CompactArray.mk [8])) ∧
    (∀ S1, (CheckSubTasksState exampleMeta (exampleStore singleFailureJob) (Config.mk 100)
        (exampleState 1 3 1)).result = Except.ok S1 →
      (∀ p : Phase, ArraySummary.count S1.ArrayStatus.Summary p
        = (List.countP (fun x : Item => decide ((x : Int) = p))
            S1.ArrayStatus.Detailed.GetItems : Int)) ∧
      (S1.ArrayStatus.Detailed.GetItems.length : Int) = (exampleState 1 3 1).ExecutionArraySize ∧
      ArraySummary.total S1.ArrayStatus.Summary = (exampleState 1 3 1).ExecutionArraySize) :=
  ⟨rfl, ⟨by decide, rfl⟩, singleFailureJob_valid, rfl,
    (CheckSubTasksState_summary_consistent exampleMeta (exampleStore singleFailureJob)
      (Config.mk 100) (exampleState 1 3 1) singleFailureJob rfl ⟨by decide, rfl⟩
      singleFailureJob_valid).2⟩

theorem recordedPhase_nonterminal (job : Job) (k : Nat) (item : Nat) (sj : SubJob) (e : Int)
    (hnt : Phase.IsTerminal (item : Int) = false) (hslot : job.SubJobs[k]? = some (some sj))
    (he : recordedPhase job k item = Except.ok e) : e = sj.Status.Phase := by
  unfold recordedPhase at he
  simp only [goIndex_natCast, bind, Except.bind, pure, Except.pure, List.get?_eq_getElem?] at he
  cases h0 : core.Phases[item]? with
  | none => simp [h0] at he
  | some e0 =>
    simp only [h0] at he
    obtain ⟨he0, _⟩ := Phases_getElem_some item e0 h0
    rw [he0, hnt, hslot] at he
    simp only [Bool.false_eq_true, if_false, goDeref] at he
    injection he with he
    exact he.symm

/-- C14: children that are not terminal are refreshed from the job record. In a round
where the job record is present, for a child `i` whose prior item is not a terminal
phase and whose sub-job slot holds a phase: a well-formed round returns a state, and
every returned state holds the phase of the sub-job slot at `i` of the new array. -/
theorem CheckSubTasksState_nonterminal_refreshed (tm : TaskExecutionMetadata) (js : JobStore)
    (cfg : Config) (cs : State) (job : Job) (hget : js.Get tm.GeneratedName = some job)
    (i : Nat) (item : Item) (sj : SubJob)
    (hitem : cs.ArrayStatus.Detailed.GetItems[i]? = some item)
    (hnt : Phase.IsTerminal (item : Int) = false)
    (hslot : job.SubJobs[i]? = some (some sj))
    (hphase : sj.Status.Phase.IsAPhase = true) :
    (RoundWellFormed cs job → ∃ S1, (CheckSubTasksState tm js cfg cs).result = Except.ok S1) ∧
    (∀ S1, (CheckSubTasksState tm js cfg cs).result = Except.ok S1 →
      ∃ n : Item, S1.ArrayStatus.Detailed.GetItems[i]? = some n ∧
        (n : Int) = sj.Status.Phase) := by
  refine ⟨round_total_of_wellFormed tm js cfg cs job hget, ?_⟩
  intro S1 hres
  obtain ⟨_, es, hes, _, _, hS1⟩ := round_present tm js cfg cs job hget S1 hres
  obtain ⟨e, he, hrec⟩ := recordedPhases_get job _ 0 es hes i item hitem
  rw [Nat.zero_add] at hrec
  have hee := recordedPhase_nonterminal job i item sj e hnt hslot hrec
  subst hee
  have hb := (isAPhase_iff _).1 hphase
  obtain ⟨n, hn, hu, hc⟩ := toUint64_phase _ hb.1 hb.2
  refine ⟨n, ?_, hc⟩
  rw [hS1, finish_arrayStatus]
  simp only [CompactArray.GetItems]
  rw [writeFrom_zero_get _ (es.map toUint64) i (toUint64 sj.Status.Phase) (by simp [he])]
  rw [hu]
  congr 1
  have hn16 : (n : Nat) < 16 := by omega
  exact Nat.mod_eq_of_lt hn16

theorem CheckSubTasksState_nonterminal_refreshed_witness :
    (exampleStore carriedJob).Get exampleMeta.GeneratedName = some carriedJob ∧
    carriedState.ArrayStatus.Detailed.GetItems[1]? = some 0 ∧
    Phase.IsTerminal ((0 : Nat) : Int) = false ∧
    carriedJob.SubJobs[1]? = some (some (SubJob.mk "sub" [] (JobStatus.mk 5 ""))) ∧
    Phase.IsAPhase 5 = true ∧
    (∀ S1, (CheckSubTasksState exampleMeta (exampleStore carriedJob) (Config.mk 100)
        carriedState).result = Except.ok S1 →
      ∃ n : Item, S1.ArrayStatus.Detailed.GetItems[1]? = some n ∧ (n : Int) = 5) :=
  ⟨rfl, rfl, rfl, rfl, rfl,
    (CheckSubTasksState_nonterminal_refreshed exampleMeta (exampleStore carriedJob)
      (Config.mk 100) carriedState carriedJob rfl 1 0 (SubJob.mk "sub" [] (JobStatus.mk 5 ""))
      rfl rfl rfl rfl).2⟩

/-- C20: index safety of a round. For a prior state whose array has N items, each the
code of a phase, and a job record present in the store whose `SubJobs` has exactly N
slots, all populated, `CheckSubTasksState` returns a new state and no error, and
makes no call that changes the store. -/
theorem CheckSubTasksState_index_safe (tm : TaskExecutionMetadata) (js : JobStore)
    (cfg : Config) (cs : State) (job : Job) (hget : js.Get tm.GeneratedName = some job)
    (hsize : cs.ArrayHasSize)
    (hitems : ∀ item ∈ cs.ArrayStatus.Detailed.GetItems, item < 9)
    (hslots : job.SubJobs.length = cs.ExecutionArraySize.toNat)
    (hpop : ∀ slot ∈ job.SubJobs, slot ≠ none) :
    ∃ S1, (CheckSubTasksState tm js cfg cs).result = Except.ok S1 ∧
      (CheckSubTasksState tm js cfg cs).calls = [] := by
  obtain ⟨hN, hlen⟩ := hsize
  have hwf : RoundWellFormed cs job := by
    refine ⟨hN, le_of_eq hlen, hitems, ?_⟩
    intro i item hi _
    have hil : i < cs.ArrayStatus.Detailed.GetItems.length := by
      by_contra hc
      rw [List.get?_eq_none.2 (by omega)] at hi
      cases hi
    have hjl : i < job.SubJobs.length := by rw [hslots, ← hlen]; exact hil
    have hg : job.SubJobs.get? i = some (job.SubJobs[i]) := by
      rw [List.get?_eq_getElem?]
      exact List.getElem?_eq_getElem hjl
    cases hs : job.SubJobs[i] with
    | none => exact absurd hs (hpop _ (List.getElem_mem hjl))
    | some sj => exact ⟨sj, by rw [hg, hs]⟩
  obtain ⟨S1, hS1⟩ := round_total_of_wellFormed tm js cfg cs job hget hwf
  refine ⟨S1, hS1, ?_⟩
  unfold CheckSubTasksState at hS1 ⊢
  have hN2 : ¬ cs.ExecutionArraySize < 0 := by omega
  simp only [hN2, if_false, hget] at hS1 ⊢
  cases hl : CheckSubTasksState.loop job cs cs.ArrayStatus.Detailed.GetItems 0
      (LoopState.mk [] errorcollector.NewErrorMessageCollector
        (ArrayStatus.mk [] (arrayCore.NewPhasesCompactArray cs.ExecutionArraySize.toNat))) <;> rfl

theorem CheckSubTasksState_index_safe_witness :
    (exampleStore failFastJob).Get exampleMeta.GeneratedName = some failFastJob ∧
    (exampleState 10 8 10).ArrayHasSize ∧
    (∀ item ∈ (exampleState 10 8 10).ArrayStatus.Detailed.GetItems, item < 9) ∧
    failFastJob.SubJobs.length = (exampleState 10 8 10).ExecutionArraySize.toNat ∧
    (∀ slot ∈ failFastJob.SubJobs, slot ≠ none) ∧
    ∃ S1, (CheckSubTasksState exampleMeta (exampleStore failFastJob) (Config.mk 100)
        (exampleState 10 8 10)).result = Except.ok S1 ∧
      (CheckSubTasksState exampleMeta (exampleStore failFastJob) (Config.mk 100)
        (exampleState 10 8 10)).calls = [] :=
  ⟨rfl, ⟨by decide, rfl⟩, by decide, rfl, by decide,
    CheckSubTasksState_index_safe exampleMeta (exampleStore failFastJob) (Config.mk 100)
      (exampleState 10 8 10) failFastJob rfl ⟨by decide, rfl⟩ (by decide) rfl (by decide)⟩

/-! ### Claims on `PhaseValues` and `IsAPhase` -/

/-- C15: `PhaseValues` returns exactly the nine codes 0, 1, ..., 8, in ascending order and
without duplicates, and `IsAPhase i` holds if and only if `i` occurs in that
sequence, that is if and only if `0 ≤ i ≤ 8`. -/
theorem PhaseValues_enumerates :
    PhaseValues = [0, 1, 2, 3, 4, 5, 6, 7, 8] ∧
    PhaseValues.Pairwise (fun a b => a < b) ∧
    PhaseValues.Nodup ∧
    (∀ i : Phase, Phase.IsAPhase i = true ↔ i ∈ PhaseValues) ∧
    (∀ i : Phase, i ∈ PhaseValues ↔ 0 ≤ i ∧ i ≤ 8) := by
  refine ⟨rfl, by decide, by decide, ?_, ?_⟩
  · intro i
    unfold Phase.IsAPhase PhaseValues
    simp only [List.any_eq_true, beq_iff_eq]
    constructor
    · rintro ⟨v, hv, rfl⟩
      exact hv
    · intro h
      exact ⟨i, h, rfl⟩
  · intro i
    unfold PhaseValues _PhaseValues
    simp only [List.mem_cons, List.mem_singleton, List.mem_nil_iff, or_false]
    change (@Eq Int i 0 ∨ @Eq Int i 1 ∨ @Eq Int i 2 ∨ @Eq Int i 3 ∨ @Eq Int i 4 ∨ @Eq Int i 5
      ∨ @Eq Int i 6 ∨ @Eq Int i 7 ∨ @Eq Int i 8) ↔ (@LE.le Int _ 0 i ∧ @LE.le Int _ i 8)
    omega

/-! ### Claims on `bigquery/plugin.go` -/

theorem handleErrorResult_phase (reason message : String) (taskInfo : core.TaskInfo) :
    (handleErrorResult reason message taskInfo).1.phase = 6
      ∨ (handleErrorResult reason message taskInfo).1.phase = 7
      ∨ (handleErrorResult reason message taskInfo).1.phase = 8 := by
  unfold handleErrorResult
  split <;> simp [core.PhaseInfoSuccess, core.PhaseInfoFailed, core.PhaseRetryableFailure,
    core.PhasePermanentFailure]

theorem handleCreateError_phase (createError : googleapi.Error) (taskInfo : core.TaskInfo) :
    (handleCreateError createError taskInfo).1.phase = 7
      ∨ (handleCreateError createError taskInfo).1.phase = 8 := by
  unfold handleCreateError
  split
  · right; rfl
  · split
    · left; rfl
    · right; rfl

theorem Plugin_Status_returns (timeNow : Nat) (resourceMeta : ResourceMetaWrapper)
    (resource : Option ResourceWrapper)
    (h : ∀ res, resource = some res → res.CreateError ≠ none ∨ res.Status ≠ none) :
    ∃ r, Plugin.Status timeNow resourceMeta resource = Except.ok r := by
  unfold Plugin.Status
  cases resource with
  | none => exact ⟨_, rfl⟩
  | some res =>
    simp only
    cases hce : res.CreateError with
    | some ce => exact ⟨_, rfl⟩
    | none =>
      simp only
      cases hst : res.Status with
      | none =>
        rcases h res rfl with h1 | h1
        · exact absurd hce h1
        · exact absurd hst h1
      | some st =>
        simp only [goDeref]
        split
        · exact ⟨_, rfl⟩
        · split
          · exact ⟨_, rfl⟩
          · split
            · cases st.ErrorResult with
              | none => exact ⟨_, rfl⟩
              | some er => exact ⟨_, rfl⟩
            · exact ⟨_, rfl⟩

/-- C16 at a resource with neither `Status` nor `CreateError`: `Status` dereferences the
nil `Status` pointer and panics, for every resource meta; for a nil resource and for
a resource with a `CreateError` or a `Status` it returns a result. -/
theorem Plugin_Status_panics_without_status (timeNow : Nat) (resourceMeta : ResourceMetaWrapper) :
    Plugin.Status timeNow resourceMeta (some (ResourceWrapper.mk none none))
      = Except.error Fault.nilDereference ∧
    (∀ resource : Option ResourceWrapper,
      (∀ res, resource = some res → res.CreateError ≠ none ∨ res.Status ≠ none) →
      ∃ r, Plugin.Status timeNow resourceMeta resource = Except.ok r) :=
  ⟨rfl, fun resource h => Plugin_Status_returns timeNow resourceMeta resource h⟩

/-- C17: `Status` maps the backend state into the phases. For a resource with a status and
no `CreateError`: the states `PENDING` and `RUNNING` give the Running phase info with
the default version; `DONE` without error result gives Success; every other state
gives the Undefined phase info with the system error `unknown execution phase`. A
nil resource gives the Undefined phase info and no error. Every phase returned is
one of the nine phases. -/
theorem Plugin_Status_maps_state (timeNow : Nat) (resourceMeta : ResourceMetaWrapper)
    (status : bigquery.JobStatus) :
    ((status.State = "PENDING" ∨ status.State = "RUNNING") →
      Plugin.Status timeNow resourceMeta (some (ResourceWrapper.mk (some status) none))
        = Except.ok (core.PhaseInfo.mk 5 core.DefaultPhaseVersion
            (some (createTaskInfo timeNow resourceMeta)) none, none)) ∧
    (status.State = "DONE" → status.ErrorResult = none →
      Plugin.Status timeNow resourceMeta (some (ResourceWrapper.mk (some status) none))
        = Except.ok (core.PhaseInfo.mk 6 core.DefaultPhaseVersion
            (some (createTaskInfo timeNow resourceMeta)) none, none)) ∧
    (status.State ≠ "PENDING" → status.State ≠ "RUNNING" → status.State ≠ "DONE" →
      Plugin.Status timeNow resourceMeta (some (ResourceWrapper.mk (some status) none))
        = Except.ok (core.PhaseInfo.mk 0 core.DefaultPhaseVersion none none,
            some (pluginErrors.Error.mk pluginErrors.ErrorCode.SystemErrorCode
              ("unknown execution phase [" ++ status.State ++ "].")))) ∧
    Plugin.Status timeNow resourceMeta none
      = Except.ok (core.PhaseInfo.mk 0 core.DefaultPhaseVersion none none, none) ∧
    (∀ (resource : Option ResourceWrapper) (r : core.PhaseInfo × Option pluginErrors.Error),
      Plugin.Status timeNow resourceMeta resource = Except.ok r →
        Phase.IsAPhase r.1.phase = true) := by
  refine ⟨?_, ?_, ?_, rfl, ?_⟩
  · intro h
    unfold Plugin.Status
    simp only [goDeref]
    rcases h with h | h
    · rw [if_pos h]
      rfl
    · by_cases hp : status.State = "PENDING"
      · rw [if_pos hp]
        rfl
      · rw [if_neg hp, if_pos h]
        rfl
  · intro h he
    unfold Plugin.Status
    simp only [goDeref]
    have h1 : status.State ≠ "PENDING" := by rw [h]; decide
    have h2 : status.State ≠ "RUNNING" := by rw [h]; decide
    rw [if_neg h1, if_neg h2, if_pos h, he]
    rfl
  · intro h1 h2 h3
    unfold Plugin.Status
    simp only [goDeref]
    rw [if_neg h1, if_neg h2, if_neg h3]
    rfl
  · intro resource r hr
    unfold Plugin.Status at hr
    cases resource with
    | none =>
      simp only at hr
      injection hr with hr
      subst hr
      rfl
    | some res =>
      simp only at hr
      cases hce : res.CreateError with
      | some ce =>
        simp only [hce] at hr
        injection hr with hr
        subst hr
        rcases handleCreateError_phase ce (createTaskInfo timeNow resourceMeta) with h | h <;>
          rw [h] <;> rfl
      | none =>
        simp only [hce] at hr
        cases hst : res.Status with
        | none => simp [hst, goDeref] at hr
        | some st =>
          simp only [hst, goDeref] at hr
          split at hr
          · injection hr with hr; subst hr; rfl
          · split at hr
            · injection hr with hr; subst hr; rfl
            · split at hr
              · cases her : st.ErrorResult with
                | none =>
                  simp only [her] at hr
                  injection hr with hr; subst hr; rfl
                | some er =>
                  simp only [her] at hr
                  injection hr with hr
                  subst hr
                  rcases handleErrorResult_phase er.Reason er.Message
                    (createTaskInfo timeNow resourceMeta) with h | h | h <;> rw [h] <;> rfl
              · injection hr with hr; subst hr; rfl

theorem handleErrorResult_other_reasons (reason message : String) (taskInfo : core.TaskInfo)
    (h1 : reason ≠ "quotaExceeded") (h2 : reason ≠ "rateLimitExceeded") :
    ∀ e, (handleErrorResult reason message taskInfo).1.err = some e →
      (e.Kind = flyteIdlCore.ErrorKind.ExecutionError_USER →
        (handleErrorResult reason message taskInfo).1.phase = 8) ∧
      ((handleErrorResult reason message taskInfo).1.phase = 7 →
        e.Kind = flyteIdlCore.ErrorKind.ExecutionError_SYSTEM) := by
  unfold handleErrorResult
  split <;> simp_all [core.PhaseInfoSuccess, core.PhaseInfoFailed, core.PhaseRetryableFailure,
    core.PhasePermanentFailure]

/-- C19: `handleCreateError` classifies the API error by its HTTP code. For every integer
code: `400 ≤ code < 500` gives PermanentFailure with a USER error, `code ≥ 500`
gives RetryableFailure with a SYSTEM error, `code < 400` gives PermanentFailure
with a SYSTEM error; the error code is `http` followed by the decimal code, the
message is that of the API error, the version is the default one and no Go error is
returned. -/
theorem handleCreateError_classifies (createError : googleapi.Error) (taskInfo : core.TaskInfo) :
    (400 ≤ createError.Code ∧ createError.Code < 500 →
      handleCreateError createError taskInfo =
        (core.PhaseInfo.mk 8 core.DefaultPhaseVersion (some taskInfo)
          (some (flyteIdlCore.ExecutionError.mk ("http" ++ toString createError.Code)
            createError.Message flyteIdlCore.ErrorKind.ExecutionError_USER)), none)) ∧
    (500 ≤ createError.Code →
      handleCreateError createError taskInfo =
        (core.PhaseInfo.mk 7 core.DefaultPhaseVersion (some taskInfo)
          (some (flyteIdlCore.ExecutionError.mk ("http" ++ toString createError.Code)
            createError.Message flyteIdlCore.ErrorKind.ExecutionError_SYSTEM)), none)) ∧
    (createError.Code < 400 →
      handleCreateError createError taskInfo =
        (core.PhaseInfo.mk 8 core.DefaultPhaseVersion (some taskInfo)
          (some (flyteIdlCore.ExecutionError.mk ("http" ++ toString createError.Code)
            createError.Message flyteIdlCore.ErrorKind.ExecutionError_SYSTEM)), none)) ∧
    (handleCreateError (googleapi.Error.mk 404 "missing") taskInfo).1.err
      = some (flyteIdlCore.ExecutionError.mk "http404" "missing"
          flyteIdlCore.ErrorKind.ExecutionError_USER) := by
  refine ⟨?_, ?_, ?_, rfl⟩
  · intro h
    unfold handleCreateError http.StatusBadRequest http.StatusInternalServerError
    rw [if_pos (by omega)]
    rfl
  · intro h
    unfold handleCreateError http.StatusBadRequest http.StatusInternalServerError
    rw [if_neg (by omega), if_pos (by omega)]
    rfl
  · intro h
    unfold handleCreateError http.StatusBadRequest http.StatusInternalServerError
    rw [if_neg (by omega), if_neg (by omega)]
    rfl

/-! ### `Status` of a finished job with an error result -/

theorem Plugin_Status_done_error (timeNow : Nat) (resourceMeta : ResourceMetaWrapper)
    (status : bigquery.JobStatus) (errorResult : bigquery.ErrorProto)
    (hstate : status.State = "DONE") (herr : status.ErrorResult = some errorResult) :
    Plugin.Status timeNow resourceMeta (some (ResourceWrapper.mk (some status) none))
      = Except.ok (handleErrorResult errorResult.Reason errorResult.Message
          (createTaskInfo timeNow resourceMeta)) := by
  unfold Plugin.Status
  simp only [goDeref]
  have h1 : status.State ≠ "PENDING" := by rw [hstate]; decide
  have h2 : status.State ≠ "RUNNING" := by rw [hstate]; decide
  rw [if_neg h1, if_neg h2, if_pos hstate, herr]

theorem handleErrorResult_nonempty (reason message : String) (taskInfo : core.TaskInfo)
    (h : reason ≠ "") :
    ∃ (p : Phase) (e : flyteIdlCore.ExecutionError), (p = 7 ∨ p = 8) ∧
      e.Code = reason ∧ e.Message = message ∧
      handleErrorResult reason message taskInfo
        = (core.PhaseInfo.mk p core.DefaultPhaseVersion (some taskInfo) (some e), none) := by
  unfold handleErrorResult
  split
  · exact absurd rfl h
  all_goals first
    | exact ⟨7, _, Or.inl rfl, rfl, rfl, rfl⟩
    | exact ⟨8, _, Or.inr rfl, rfl, rfl, rfl⟩

theorem handleErrorResult_unlisted (reason message : String) (taskInfo : core.TaskInfo)
    (h : reason ∉ handleErrorResult.listedReasons) :
    handleErrorResult reason message taskInfo
      = (core.PhaseInfo.mk 8 core.DefaultPhaseVersion (some taskInfo)
          (some (flyteIdlCore.ExecutionError.mk reason message
            flyteIdlCore.ErrorKind.ExecutionError_SYSTEM)), none) := by
  unfold handleErrorResult
  split
  all_goals first
    | rfl
    | exact absurd (by decide) h

/-- C21: `Status` of a job in state `DONE` that carries an error result, the resource
having no `CreateError`. When the reason is the empty string the result is the
Success phase info and no error, for every message; for every non-empty reason it is
RetryableFailure or PermanentFailure with an execution error carrying the reason and
the message; for a reason that `handleErrorResult` does not list it is
PermanentFailure with a SYSTEM error. -/
theorem Plugin_Status_done_with_error_result (timeNow : Nat) (resourceMeta : ResourceMetaWrapper)
    (status : bigquery.JobStatus) (errorResult : bigquery.ErrorProto)
    (hstate : status.State = "DONE") (herr : status.ErrorResult = some errorResult) :
    (errorResult.Reason = "" →
      Plugin.Status timeNow resourceMeta (some (ResourceWrapper.mk (some status) none))
        = Except.ok (core.PhaseInfo.mk 6 core.DefaultPhaseVersion
            (some (createTaskInfo timeNow resourceMeta)) none, none)) ∧
    (errorResult.Reason ≠ "" →
      ∃ (p : Phase) (e : flyteIdlCore.ExecutionError), (p = 7 ∨ p = 8) ∧
        e.Code = errorResult.Reason ∧ e.Message = errorResult.Message ∧
        Plugin.Status timeNow resourceMeta (some (ResourceWrapper.mk (some status) none))
          = Except.ok (core.PhaseInfo.mk p core.DefaultPhaseVersion
              (some (createTaskInfo timeNow resourceMeta)) (some e), none)) ∧
    (errorResult.Reason ∉ handleErrorResult.listedReasons →
      Plugin.Status timeNow resourceMeta (some (ResourceWrapper.mk (some status) none))
        = Except.ok (core.PhaseInfo.mk 8 core.DefaultPhaseVersion
            (some (createTaskInfo timeNow resourceMeta))
            (some (flyteIdlCore.ExecutionError.mk errorResult.Reason errorResult.Message
              flyteIdlCore.ErrorKind.ExecutionError_SYSTEM)), none)) := by
  rw [Plugin_Status_done_error timeNow resourceMeta status errorResult hstate herr]
  refine ⟨?_, ?_, ?_⟩
  · intro h
    rw [h]
    rfl
  · intro h
    obtain ⟨p, e, hp, hc, hm, heq⟩ := handleErrorResult_nonempty errorResult.Reason
      errorResult.Message (createTaskInfo timeNow resourceMeta) h
    exact ⟨p, e, hp, hc, hm, by rw [heq]⟩
  · intro h
    rw [handleErrorResult_unlisted _ _ _ h]

theorem Plugin_Status_done_with_error_result_witness :
    (doneWithError "" "ignored").State = "DONE" ∧
    (doneWithError "" "ignored").ErrorResult = some (bigquery.ErrorProto.mk "" "ignored") ∧
    Plugin.Status 0 exampleResourceMeta
        (some (ResourceWrapper.mk (some (doneWithError "" "ignored")) none))
      = Except.ok (core.PhaseInfo.mk 6 core.DefaultPhaseVersion
          (some (createTaskInfo 0 exampleResourceMeta)) none, none) ∧
    (Plugin.Status 0 exampleResourceMeta
        (some (ResourceWrapper.mk (some (doneWithError "unheardOf" "text")) none))).map
        (fun r => (r.1.phase, r.1.err))
      = Except.ok (8, some (flyteIdlCore.ExecutionError.mk "unheardOf" "text"
          flyteIdlCore.ErrorKind.ExecutionError_SYSTEM)) :=
  ⟨rfl, rfl,
    (Plugin_Status_done_with_error_result 0 exampleResourceMeta (doneWithError "" "ignored")
      (bigquery.ErrorProto.mk "" "ignored") rfl rfl).1 rfl,
    rfl⟩

/-! ### Kind and phase in `handleErrorResult` -/

/-- C18, as stated, fails: for the reason `quotaExceeded` the failure is classified as a
USER error and the phase is RetryableFailure, so a USER error is not always
PermanentFailure and RetryableFailure is not only paired with SYSTEM. -/
theorem handleErrorResult_quotaExceeded_user_retryable :
    (handleErrorResult "quotaExceeded" "quota" (createTaskInfo 0 exampleResourceMeta)).1.err
      = some (flyteIdlCore.ExecutionError.mk "quotaExceeded" "quota"
          flyteIdlCore.ErrorKind.ExecutionError_USER) ∧
    (handleErrorResult "quotaExceeded" "quota" (createTaskInfo 0 exampleResourceMeta)).1.phase
      = 7 ∧
    ¬ (∀ e, (handleErrorResult "quotaExceeded" "quota"
          (createTaskInfo 0 exampleResourceMeta)).1.err = some e →
        (e.Kind = flyteIdlCore.ErrorKind.ExecutionError_USER →
          (handleErrorResult "quotaExceeded" "quota"
            (createTaskInfo 0 exampleResourceMeta)).1.phase = 8) ∧
        ((handleErrorResult "quotaExceeded" "quota"
            (createTaskInfo 0 exampleResourceMeta)).1.phase = 7 →
          e.Kind = flyteIdlCore.ErrorKind.ExecutionError_SYSTEM)) := by
  refine ⟨rfl, rfl, ?_⟩
  intro h
  have h2 := (h _ rfl).2 rfl
  cases h2

/-- C18, amended: in `handleErrorResult`, for every non-empty reason other than
`quotaExceeded` and `rateLimitExceeded` there is an execution error, a USER error
comes with PermanentFailure and RetryableFailure comes with a SYSTEM error; for
the reasons `quotaExceeded` and `rateLimitExceeded` the phase is RetryableFailure
with a USER error, for every message. -/
theorem handleErrorResult_kind_and_phase (message : String) (taskInfo : core.TaskInfo) :
    handleErrorResult "quotaExceeded" message taskInfo
      = (core.PhaseInfo.mk 7 core.DefaultPhaseVersion (some taskInfo)
          (some (flyteIdlCore.ExecutionError.mk "quotaExceeded" message
            flyteIdlCore.ErrorKind.ExecutionError_USER)), none) ∧
    handleErrorResult "rateLimitExceeded" message taskInfo
      = (core.PhaseInfo.mk 7 core.DefaultPhaseVersion (some taskInfo)
          (some (flyteIdlCore.ExecutionError.mk "rateLimitExceeded" message
            flyteIdlCore.ErrorKind.ExecutionError_USER)), none) ∧
    (∀ reason : String, reason ≠ "" → reason ≠ "quotaExceeded" →
      reason ≠ "rateLimitExceeded" →
      ∃ e, (handleErrorResult reason message taskInfo).1.err = some e ∧
        (e.Kind = flyteIdlCore.ErrorKind.ExecutionError_USER →
          (handleErrorResult reason message taskInfo).1.phase = 8) ∧
        ((handleErrorResult reason message taskInfo).1.phase = 7 →
          e.Kind = flyteIdlCore.ErrorKind.ExecutionError_SYSTEM)) := by
  refine ⟨rfl, rfl, ?_⟩
  intro reason h0 h1 h2
  obtain ⟨p, e, _, _, _, heq⟩ := handleErrorResult_nonempty reason message taskInfo h0
  have he : (handleErrorResult reason message taskInfo).1.err = some e := by rw [heq]
  exact ⟨e, he, handleErrorResult_other_reasons reason message taskInfo h1 h2 e he⟩

end Flyteplugins
